import Mathlib

/-!
Verification of the board rule engine and AI move search of the
Blocks placement game.

The board is a JavaScript `Map` keyed by `"x,y"` strings; we embed it as an
association list over `Int × Int` keys carrying the `Map` invariant that keys
are pairwise distinct.  Pure functions of the source
(`src/client/utils/gameLogic.ts` and the AI module) are translated one to one;
the only adaptations are:
* the `while` loop of `getColumnHeight` becomes fuel-bounded recursion with
  provably sufficient fuel (the loop visits pairwise distinct keys);
* `Math.random()` draws are replaced by an explicit `RandSrc` record of
  injected outcomes (shuffle permutation, coin flips, pick indices), and the
  random move ids `ai-${Math.random()}` by an injected id generator;
* JavaScript numbers are embedded as `Int` (all arithmetic in the source is
  exact on integers; the single `* 1.5` is exact: `100 * 1.5 = 150`), the
  `±Infinity` minimax sentinels as an extended-integer type `XInt`, and the
  fractional tie-break thresholds (`0.1`, `0.05`) as exact `Rat` comparisons.
-/

namespace Blocks

/-- The two player tags, `"white" | "black"` in the source. -/
inductive Player where
  | white : Player
  | black : Player
deriving DecidableEq, Repr

/-- Block orientation, `"horizontal" | "vertical"` in the source. -/
inductive Orientation where
  | vertical : Orientation
  | horizontal : Orientation
deriving DecidableEq, Repr

/-- Which half of a block a cell holds, `"origin" | "extension"`. -/
inductive Part where
  | origin : Part
  | extension : Part
deriving DecidableEq, Repr

/-- `CellData` of `src/client/types.ts`. -/
structure CellData where
  player : Player
  orientation : Orientation
  blockId : String
  part : Part
deriving DecidableEq, Repr

/-- `BlockData` of `src/client/types.ts`. -/
structure BlockData where
  id : String
  x : Int
  y : Int
  orientation : Orientation
  player : Player
deriving DecidableEq, Repr

/-- A board coordinate; the source uses the string key `"x,y"`. -/
abbrev Pos := Int × Int

/-- `GridState`: a JavaScript `Map` from coordinates to cells, embedded as an
association list whose keys are pairwise distinct (the `Map` invariant). -/
structure GridState where
  entries : List (Pos × CellData)
  nodup : entries.Pairwise (fun a b => a.1 ≠ b.1)

/-- `grid.get(key)`. -/
def mapGet (g : GridState) (k : Pos) : Option CellData :=
  (g.entries.find? (fun e => decide (e.1 = k))).map (fun e => e.2)

/-- `grid.has(key)`. -/
def mapHas (g : GridState) (k : Pos) : Bool :=
  (g.entries.find? (fun e => decide (e.1 = k))).isSome

/-- `grid.set(key, value)` on the underlying entry list: overwrite in place if
the key is present, append otherwise (JavaScript `Map` insertion order). -/
def setEntries (l : List (Pos × CellData)) (k : Pos) (v : CellData) :
    List (Pos × CellData) :=
  if l.any (fun e => decide (e.1 = k)) then
    l.map (fun e => if e.1 = k then (k, v) else e)
  else
    l ++ [(k, v)]

theorem setEntries_nodup (l : List (Pos × CellData)) (k : Pos) (v : CellData)
    (h : l.Pairwise (fun a b => a.1 ≠ b.1)) :
    (setEntries l k v).Pairwise (fun a b => a.1 ≠ b.1) := by
  unfold setEntries
  split
  · have hkey : ∀ e : Pos × CellData,
        (if e.1 = k then (k, v) else e).1 = e.1 := by
      intro e; split <;> simp_all
    refine (List.pairwise_map).2 ?_
    refine h.imp_of_mem ?_
    intro a b _ _ hab
    simpa [hkey a, hkey b] using hab
  · next hnone =>
    rw [List.pairwise_append]
    refine ⟨h, by simp, ?_⟩
    intro a ha b hb
    simp only [List.mem_singleton] at hb
    subst hb
    simp only [List.any_eq_true, not_exists, not_and] at hnone
    have := fun hc => hnone a ha (by simpa using hc)
    simpa using this

/-- `grid.set(key, value)`. -/
def mapSet (g : GridState) (k : Pos) (v : CellData) : GridState :=
  ⟨setEntries g.entries k v, setEntries_nodup g.entries k v g.nodup⟩

/-- `createEmptyGrid()`. -/
def createEmptyGrid : GridState := ⟨[], List.Pairwise.nil⟩

/-- `applyBlockToGridInPlace(grid, block)` — the two `grid.set` writes. -/
def applyBlockToGridInPlace (g : GridState) (b : BlockData) : GridState :=
  let cellOrigin : CellData := ⟨b.player, b.orientation, b.id, Part.origin⟩
  let cellExt : CellData := ⟨b.player, b.orientation, b.id, Part.extension⟩
  if b.orientation = Orientation.vertical then
    mapSet (mapSet g (b.x, b.y) cellOrigin) (b.x, b.y + 1) cellExt
  else
    mapSet (mapSet g (b.x, b.y) cellOrigin) (b.x + 1, b.y) cellExt

/-- `new Map(grid)` — the shallow copy taken by `applyBlockToGrid`. -/
def mapCopy (g : GridState) : GridState := ⟨g.entries, g.nodup⟩

/-- `applyBlockToGrid(grid, block)`: copy, then write the two cells. -/
def applyBlockToGrid (g : GridState) (b : BlockData) : GridState :=
  applyBlockToGridInPlace (mapCopy g) b

/-- `rebuildGridFromBlocks(blocks)`: replay the history into a fresh grid. -/
def rebuildGridFromBlocks (blocks : List BlockData) : GridState :=
  blocks.foldl applyBlockToGridInPlace createEmptyGrid

/-- `GRID_SIZE = 9` (`src/client/constants.ts`). -/
def GRID_SIZE : Int := 9

/-- `WIN_LENGTH = 5` (`src/client/constants.ts`). -/
def WIN_LENGTH : Nat := 5

/-- `MAX_BLOCKS_PER_PLAYER = 20` (`src/client/constants.ts`). -/
def MAX_BLOCKS_PER_PLAYER : Nat := 20

/-- The `while (grid.has(...)) y++` loop of `getColumnHeight`, embedded with
fuel; `getColumnHeight` supplies fuel that provably cannot run out. -/
def colHeightAux (g : GridState) (cx : Int) : Nat → Nat → Nat
  | 0, y => y
  | fuel + 1, y => if mapHas g (cx, (y : Int)) then colHeightAux g cx fuel (y + 1) else y

/-- `getColumnHeight` of `findDropPosition`: first `y ≥ 0` with `(cx, y)` free. -/
def getColumnHeight (g : GridState) (cx : Int) : Nat :=
  colHeightAux g cx (g.entries.length + 1) 0

/-- `findDropPosition(grid, x, orientation)`; `-1` encodes an invalid drop. -/
def findDropPosition (g : GridState) (x : Int) (o : Orientation) : Int :=
  if o = Orientation.vertical then
    let h : Int := getColumnHeight g x
    if h + 1 ≥ GRID_SIZE then -1 else h
  else
    let h1 : Int := getColumnHeight g x
    let h2 : Int := getColumnHeight g (x + 1)
    let targetY := max h1 h2
    if targetY ≠ 0 ∧ h1 ≠ h2 then -1
    else if targetY ≥ GRID_SIZE then -1
    else targetY

/-- The per-orientation neighbor offset list of `isConnectedToExisting`. -/
def connectPositions (x y : Int) (o : Orientation) : List Pos :=
  if o = Orientation.vertical then
    [(x - 1, y), (x + 1, y), (x, y - 1), (x - 1, y + 1), (x + 1, y + 1), (x, y + 2)]
  else
    [(x - 1, y), (x, y - 1), (x, y + 1), (x + 1, y - 1), (x + 1, y + 1), (x + 2, y)]

/-- `isConnectedToExisting(grid, x, y, orientation)`. -/
def isConnectedToExisting (g : GridState) (x y : Int) (o : Orientation) : Bool :=
  (connectPositions x y o).any (fun q => mapHas g q)

/-- `getGridBounds(grid)`: min and max occupied x, `(0, 0)` when empty. -/
def getGridBounds (g : GridState) : Int × Int :=
  match g.entries.map (fun e => e.1.1) with
  | [] => (0, 0)
  | x :: rest => (rest.foldl min x, rest.foldl max x)

/-- `checkWidthConstraint(grid, x, orientation)`. -/
def checkWidthConstraint (g : GridState) (x : Int) (o : Orientation) : Bool :=
  if g.entries.isEmpty then true
  else
    let b := getGridBounds g
    let newBlockMinX := x
    let newBlockMaxX := if o = Orientation.horizontal then x + 1 else x
    let newMin := min b.1 newBlockMinX
    let newMax := max b.2 newBlockMaxX
    decide (newMax - newMin + 1 ≤ GRID_SIZE)

/-- The `cell && cell.player === player && cell.orientation === o` test of the
short-side rule. -/
def cellMatches (oc : Option CellData) (p : Player) (o : Orientation) : Bool :=
  match oc with
  | some c => decide (c.player = p ∧ c.orientation = o)
  | none => false

/-- `validateMove(grid, x, y, orientation, player)`: drop validity, width,
connectivity, then the short-side rule. -/
def validateMove (g : GridState) (x y : Int) (o : Orientation) (p : Player) : Bool :=
  if y = -1 then false
  else if ¬ checkWidthConstraint g x o then false
  else if 0 < g.entries.length ∧ ¬ isConnectedToExisting g x y o then false
  else if o = Orientation.vertical then
    if y > 0 then ¬ cellMatches (mapGet g (x, y - 1)) p Orientation.vertical
    else true
  else
    if cellMatches (mapGet g (x - 1, y)) p Orientation.horizontal then false
    else ¬ cellMatches (mapGet g (x + 2, y)) p Orientation.horizontal

/-- The inclusive integer range `[lo, hi]` iterated by the `for` loops. -/
def intRange (lo hi : Int) : List Int :=
  (List.range (hi + 1 - lo).toNat).map (fun (i : Nat) => lo + (i : Int))

/-- `hasValidMove(grid, player)`: scan `[minX - 9, maxX + 9]`, both
orientations; an empty grid always has a move. -/
def hasValidMove (g : GridState) (p : Player) : Bool :=
  if g.entries.isEmpty then true
  else
    let b := getGridBounds g
    (intRange (b.1 - GRID_SIZE) (b.2 + GRID_SIZE)).any (fun x =>
      [Orientation.vertical, Orientation.horizontal].any (fun o =>
        validateMove g x (findDropPosition g x o) o p))

/-- The four scan directions of `checkWin`, in source order. -/
def directions : List (Int × Int) := [(1, 0), (0, 1), (1, 1), (1, -1)]

/-- The coordinates of the cells owned by `p`, in board iteration order. -/
def playerCells (g : GridState) (p : Player) : List Pos :=
  (g.entries.filter (fun e => decide (e.2.player = p))).map (fun e => e.1)

/-- The `for (step = 1; step < WIN_LENGTH; step++)` run accumulation of
`checkWin`: extend from `(x, y)` along `(dx, dy)` while the cells belong to
`p`, for at most `n` further steps. -/
def lineExt (g : GridState) (p : Player) (x y dx dy : Int) : Nat → List Pos
  | 0 => []
  | n + 1 =>
    match mapGet g (x + dx, y + dy) with
    | some c =>
        if c.player = p then (x + dx, y + dy) :: lineExt g p (x + dx) (y + dy) dx dy n
        else []
    | none => []

/-- One direction scan of `checkWin` from a start cell. -/
def winLineAt (g : GridState) (p : Player) (x y dx dy : Int) : List Pos :=
  (x, y) :: lineExt g p x y dx dy (WIN_LENGTH - 1)

/-- All four direction scans from one start cell, first hit wins. -/
def scanCell (g : GridState) (p : Player) (q : Pos) : Option (List Pos) :=
  directions.findSome? (fun d =>
    let l := winLineAt g p q.1 q.2 d.1 d.2
    if WIN_LENGTH ≤ l.length then some l else none)

/-- `checkWin(grid, player)`: first winning run in board iteration order. -/
def checkWin (g : GridState) (p : Player) : Option (List Pos) :=
  (playerCells g p).findSome? (scanCell g p)

/-! ## The AI module (`src/unnamed/part_002`) -/

/-- `"easy" | "medium" | "hard"`. -/
inductive AIDifficulty where
  | easy : AIDifficulty
  | medium : AIDifficulty
  | hard : AIDifficulty
deriving DecidableEq, Repr

/-- `player === "white" ? "black" : "white"`. -/
def oppOf (p : Player) : Player :=
  if p = Player.white then Player.black else Player.white

/-- The `SCORES` table of the AI module. -/
def SCORES_WIN : Int := 100000

def SCORES_FOUR_IN_ROW : Int := 1000

def SCORES_THREE_IN_ROW : Int := 100

def SCORES_TWO_IN_ROW : Int := 10

def SCORES_CENTER : Int := 3

def SCORES_CONNECTIVITY : Int := 5

/-- `checkLine` of `getHeuristicScore`: classify one length-5 window by the
counts of own and opposing cells.  The source's `* 1.5` on
`THREE_IN_ROW` is exact: `100 * 3 / 2 = 150`.  (The source also counts empty
cells into an `emptyCount` variable that it never reads; it is omitted.) -/
def checkLineScore (g : GridState) (p : Player) (x y dx dy : Int) : Int :=
  let seen := (List.range WIN_LENGTH).map
    (fun (i : Nat) => mapGet g (x + dx * (i : Int), y + dy * (i : Int)))
  let playerCount := (seen.filter (fun oc =>
    match oc with
    | some c => decide (c.player = p)
    | none => false)).length
  let opponentCount := (seen.filter (fun oc =>
    match oc with
    | some c => decide (c.player ≠ p)
    | none => false)).length
  if 0 < playerCount ∧ opponentCount = 0 then
    if playerCount = 5 then SCORES_WIN
    else if playerCount = 4 then SCORES_FOUR_IN_ROW
    else if playerCount = 3 then SCORES_THREE_IN_ROW
    else if playerCount = 2 then SCORES_TWO_IN_ROW
    else 0
  else if 0 < opponentCount ∧ playerCount = 0 then
    if opponentCount = 5 then -SCORES_WIN
    else if opponentCount = 4 then -SCORES_FOUR_IN_ROW * 2
    else if opponentCount = 3 then -(SCORES_THREE_IN_ROW * 3 / 2)
    else if opponentCount = 2 then -SCORES_TWO_IN_ROW
    else 0
  else 0

/-- The eight neighbor offsets of the connectivity bonus, in source order. -/
def adjacentOffsets (x y : Int) : List Pos :=
  [(x + 1, y), (x - 1, y), (x, y + 1), (x, y - 1),
   (x + 1, y + 1), (x - 1, y - 1), (x + 1, y - 1), (x - 1, y + 1)]

/-- The count of 8-neighbors of `(x, y)` occupied by cells of `p`. -/
def adjacentCount (g : GridState) (p : Player) (x y : Int) : Nat :=
  ((adjacentOffsets x y).filter (fun q =>
    match mapGet g q with
    | some c => decide (c.player = p)
    | none => false)).length

/-- The per-cell center and connectivity bonus of `getHeuristicScore`. -/
def cellBonus (g : GridState) (p : Player) (x y : Int) : Int :=
  match mapGet g (x, y) with
  | some c =>
      if c.player = p then
        max 0 (5 - (x.natAbs : Int)) * SCORES_CENTER
          + (adjacentCount g p x y : Int) * SCORES_CONNECTIVITY
      else 0
  | none => 0

/-- `getHeuristicScore(grid, player)`: sum the window scores of the four
directions and the per-cell bonuses over `x ∈ [minX-2, maxX+2]`,
`y ∈ [0, GRID_SIZE]` (the source's upper bound is inclusive). -/
def getHeuristicScore (g : GridState) (p : Player) : Int :=
  let b := getGridBounds g
  ((intRange (b.1 - 2) (b.2 + 2)).map (fun x =>
    ((intRange 0 GRID_SIZE).map (fun y =>
      checkLineScore g p x y 1 0 + checkLineScore g p x y 0 1
        + checkLineScore g p x y 1 1 + checkLineScore g p x y 1 (-1)
        + cellBonus g p x y)).sum)).sum

/-- `getHeuristicScore` as the specification describes it, with a
per-neighbor connectivity bonus of `3` instead of the source's
`SCORES.CONNECTIVITY = 5`; used to compare spec and source. -/
def getHeuristicScoreClaimed (g : GridState) (p : Player) : Int :=
  let b := getGridBounds g
  ((intRange (b.1 - 2) (b.2 + 2)).map (fun x =>
    ((intRange 0 GRID_SIZE).map (fun y =>
      checkLineScore g p x y 1 0 + checkLineScore g p x y 0 1
        + checkLineScore g p x y 1 1 + checkLineScore g p x y 1 (-1)
        + (match mapGet g (x, y) with
           | some c =>
               if c.player = p then
                 max 0 (5 - (x.natAbs : Int)) * 3 + (adjacentCount g p x y : Int) * 3
               else 0
           | none => 0))).sum)).sum

/-- The move record pushed by `getAllPossibleMoves`; the random id
`ai-${Math.random()}` is injected as `idf x orientation`. -/
def mkAiMove (idf : Int → Orientation → String) (p : Player) (x y : Int)
    (o : Orientation) : BlockData :=
  ⟨idf x o, x, y, o, p⟩

/-- `getAllPossibleMoves(grid, player)`: scan `x ∈ [minX-2, maxX+2]` (just
`{0}` on an empty grid), both orientations, keeping validated drops. -/
def getAllPossibleMoves (g : GridState) (p : Player)
    (idf : Int → Orientation → String) : List BlockData :=
  let b := getGridBounds g
  let startX := if g.entries.isEmpty then 0 else b.1 - 2
  let endX := if g.entries.isEmpty then 0 else b.2 + 2
  (intRange startX endX).flatMap (fun x =>
    [Orientation.vertical, Orientation.horizontal].filterMap (fun o =>
      let y := findDropPosition g x o
      if validateMove g x y o p then some (mkAiMove idf p x y o) else none))

/-- JavaScript numbers as used by `minimax`: integers plus the `±Infinity`
sentinels. -/
inductive XInt where
  | negInf : XInt
  | fin : Int → XInt
  | posInf : XInt
deriving DecidableEq, Repr

/-- `a <= b` on scores. -/
def xle : XInt → XInt → Bool
  | XInt.negInf, _ => true
  | XInt.fin _, XInt.negInf => false
  | XInt.fin a, XInt.fin b => decide (a ≤ b)
  | XInt.fin _, XInt.posInf => true
  | XInt.posInf, XInt.posInf => true
  | XInt.posInf, _ => false

/-- `Math.max` on scores. -/
def xmax (a b : XInt) : XInt := if xle a b then b else a

/-- `Math.min` on scores. -/
def xmin (a b : XInt) : XInt := if xle a b then a else b

/-- The alpha-beta `for (move of moves)` loop of `minimax`, with the `break`
on `beta <= alpha`; `next` evaluates a child position one ply deeper. -/
def abLoop (next : GridState → XInt → XInt → XInt) (g : GridState)
    (isMax : Bool) : List BlockData → XInt → XInt → XInt → XInt
  | [], _, _, best => best
  | m :: rest, alpha, beta, best =>
      let ev := next (applyBlockToGrid g m) alpha beta
      if isMax then
        let best' := xmax best ev
        let alpha' := xmax alpha ev
        if xle beta alpha' then best' else abLoop next g isMax rest alpha' beta best'
      else
        let best' := xmin best ev
        let beta' := xmin beta ev
        if xle beta' alpha then best' else abLoop next g isMax rest alpha beta' best'

/-- `minimax(grid, depth, isMaximizing, player, alpha, beta)`; the source's
`opponent` local is inlined as `oppOf p`. -/
def minimax (g : GridState) (depth : Nat) (isMax : Bool) (p : Player)
    (idf : Int → Orientation → String) (alpha beta : XInt) : XInt :=
  if (checkWin g (if isMax then p else oppOf p)).isSome then
    if isMax then XInt.fin (SCORES_WIN + depth) else XInt.fin (-(SCORES_WIN + depth))
  else
    match depth with
    | 0 => XInt.fin (getHeuristicScore g p)
    | d + 1 =>
        let moves := getAllPossibleMoves g (if isMax then p else oppOf p) idf
        if moves.isEmpty then XInt.fin 0
        else if isMax then
          abLoop (fun g' a b => minimax g' d false p idf a b) g true moves
            alpha beta XInt.negInf
        else
          abLoop (fun g' a b => minimax g' d true p idf a b) g false moves
            alpha beta XInt.posInf

/-- The `Math.random()` outcomes consumed by one `getBestMove` call, injected
explicitly: the shuffle permutation, the easy-mode coin (`Math.random() < 0.8`),
the pick indices of the uniform draws, and the medium/hard tie-break coins. -/
structure RandSrc where
  shuffle : List BlockData → List BlockData
  easyCoin : Bool
  easyPick : Nat
  winPick : Nat
  blockPick : Nat
  medCoin : Bool
  medPick : Nat
  hardCoin : Bool
  hardPick : Nat

/-- `l[Math.floor(Math.random() * l.length)]` with an injected draw `i`;
the reachable indices are exactly `0 ≤ i % l.length < l.length`. -/
def pickFrom {α : Type} (l : List α) (i : Nat) (d : α) : α :=
  l.getD (i % l.length) d

/-- A junk block for the (provably unreachable) out-of-range accesses. -/
def defaultBlock : BlockData := ⟨"", 0, 0, Orientation.vertical, Player.white⟩

/-- `m.score >= bestScore - Math.abs(bestScore / den)` of the tie-break
filters (`den = 10` for medium, `20` for hard), with JavaScript semantics on
the infinite sentinels (`Infinity - Infinity` is `NaN`, and `>= NaN` fails). -/
def scoreAtLeast (s best : XInt) (den : Int) : Bool :=
  match best with
  | XInt.posInf => false
  | XInt.negInf => true
  | XInt.fin b =>
      match s with
      | XInt.posInf => true
      | XInt.negInf => false
      | XInt.fin sv => decide ((sv : Rat) ≥ (b : Rat) - |(b : Rat)| / (den : Rat))

/-- The `blockingMoves` collection loop of `getBestMove`: for every candidate
and every winning opponent reply, the candidate is pushed when the opponent
has no winning reply left after the candidate is played. -/
def blockingMovesOf (g : GridState) (opponent : Player)
    (shuffled : List BlockData) (idf : Int → Orientation → String) :
    List BlockData :=
  shuffled.flatMap (fun move =>
    (getAllPossibleMoves g opponent idf).filterMap (fun oppMove =>
      if (checkWin (applyBlockToGrid g oppMove) opponent).isSome then
        let ourGrid := applyBlockToGrid g move
        if (getAllPossibleMoves ourGrid opponent idf).any (fun o2 =>
            (checkWin (applyBlockToGrid ourGrid o2) opponent).isSome) then none
        else some move
      else none))

/-- The search depth by difficulty, `{easy: 1, medium: 2, hard: 4}`. -/
def searchDepth (difficulty : AIDifficulty) : Nat :=
  if difficulty = AIDifficulty.easy then 1
  else if difficulty = AIDifficulty.medium then 2 else 4

/-- The `topMoves` root scores of `getBestMove`: every shuffled candidate
paired with its minimax value. -/
def rootScores (g : GridState) (p : Player) (difficulty : AIDifficulty)
    (idf : Int → Orientation → String) (shuffledMoves : List BlockData) :
    List (BlockData × XInt) :=
  shuffledMoves.map (fun m =>
    (m, minimax (applyBlockToGrid g m) (searchDepth difficulty) false p idf
      XInt.negInf XInt.posInf))

/-- `topMoves.sort((a, b) => b.score - a.score)`: sort by score descending
(JavaScript `Array.prototype.sort` is stable, embedded as stable merge sort). -/
def sortedRoot (g : GridState) (p : Player) (difficulty : AIDifficulty)
    (idf : Int → Orientation → String) (shuffledMoves : List BlockData) :
    List (BlockData × XInt) :=
  (rootScores g p difficulty idf shuffledMoves).mergeSort (fun a b => xle b.2 a.2)

/-- The difficulty-specific tie-break randomization applied to the sorted
root candidate list (`goodMoves` / `topCandidates` of the source). -/
def tieBreak (r : RandSrc) (difficulty : AIDifficulty)
    (sorted : List (BlockData × XInt)) (best : BlockData × XInt) :
    Option BlockData :=
  match difficulty with
  | AIDifficulty.medium =>
      if 1 < (sorted.filter (fun ms => scoreAtLeast ms.2 best.2 10)).length ∧
          r.medCoin then
        some (pickFrom (sorted.filter (fun ms => scoreAtLeast ms.2 best.2 10))
          r.medPick (defaultBlock, XInt.fin 0)).1
      else ((sorted.filter (fun ms => scoreAtLeast ms.2 best.2 10)).head?).map
        (fun ms => ms.1)
  | AIDifficulty.hard =>
      if 1 < (sorted.filter (fun ms => scoreAtLeast ms.2 best.2 20)).length ∧
          r.hardCoin then
        some ((sorted.filter (fun ms => scoreAtLeast ms.2 best.2 20)).getD
          (r.hardPick % min (sorted.filter
            (fun ms => scoreAtLeast ms.2 best.2 20)).length 2)
          (defaultBlock, XInt.fin 0)).1
      else some best.1
  | AIDifficulty.easy => some best.1

/-- The minimax stage of `getBestMove`: score and sort the candidates, then
apply the difficulty-specific tie-break randomization. -/
def minimaxStage (g : GridState) (p : Player) (difficulty : AIDifficulty)
    (r : RandSrc) (idf : Int → Orientation → String)
    (shuffledMoves : List BlockData) : Option BlockData :=
  match sortedRoot g p difficulty idf shuffledMoves with
  | [] => shuffledMoves.head?
  | best :: rest => tieBreak r difficulty (best :: rest) best

/-- `getBestMove(grid, player, difficulty)` with the random draws injected. -/
def getBestMove (g : GridState) (p : Player) (difficulty : AIDifficulty)
    (r : RandSrc) (idf : Int → Orientation → String) : Option BlockData :=
  let moves := getAllPossibleMoves g p idf
  if moves.isEmpty then none
  else
    let shuffledMoves := r.shuffle moves
    if difficulty = AIDifficulty.easy ∧ r.easyCoin then
      some (pickFrom shuffledMoves r.easyPick defaultBlock)
    else
      let winningMoves := shuffledMoves.filter (fun m =>
        (checkWin (applyBlockToGrid g m) p).isSome)
      if ¬ winningMoves.isEmpty then
        some (pickFrom winningMoves r.winPick defaultBlock)
      else
        let blockingMoves := blockingMovesOf g (oppOf p) shuffledMoves idf
        if ¬ blockingMoves.isEmpty then
          some (pickFrom blockingMoves r.blockPick defaultBlock)
        else minimaxStage g p difficulty r idf shuffledMoves

/-- The number of distinct block ids owned by `p` on the board — the placed
block count of the exhaustion rule. -/
def placedBlockCount (g : GridState) (p : Player) : Nat :=
  (((g.entries.filter (fun e => decide (e.2.player = p))).map
    (fun e => e.2.blockId)).dedup).length

/-! ## Map lemmas -/

theorem mapHas_eq_isSome (g : GridState) (k : Pos) :
    mapHas g k = (mapGet g k).isSome := by
  simp [mapHas, mapGet]

theorem mapGet_mem_of_eq_some {g : GridState} {k : Pos} {c : CellData}
    (h : mapGet g k = some c) : (k, c) ∈ g.entries := by
  unfold mapGet at h
  obtain ⟨e, he, hec⟩ := Option.map_eq_some'.1 h
  have hk := List.find?_some he
  have hm := List.mem_of_find?_eq_some he
  simp only [decide_eq_true_eq] at hk
  obtain ⟨e1, e2⟩ := e
  simp only at hk hec
  subst hk; subst hec
  exact hm

theorem find?_eq_some_of_mem_nodup {l : List (Pos × CellData)} {k : Pos}
    {c : CellData} (hn : l.Pairwise (fun a b => a.1 ≠ b.1))
    (hm : (k, c) ∈ l) : l.find? (fun e => decide (e.1 = k)) = some (k, c) := by
  induction l with
  | nil => simp at hm
  | cons e rest ih =>
      rcases List.mem_cons.1 hm with he | ht
      · subst he
        simp [List.find?]
      · have hne : e.1 ≠ k := by
          have := (List.pairwise_cons.1 hn).1 (k, c) ht
          simpa using this
        have hrest := ih (List.pairwise_cons.1 hn).2 ht
        simp [List.find?, hne, hrest]

theorem mapGet_eq_some_of_mem {g : GridState} {k : Pos} {c : CellData}
    (hm : (k, c) ∈ g.entries) : mapGet g k = some c := by
  unfold mapGet
  rw [find?_eq_some_of_mem_nodup g.nodup hm]
  rfl

theorem mapHas_true_iff (g : GridState) (k : Pos) :
    mapHas g k = true ↔ ∃ c, (k, c) ∈ g.entries := by
  rw [mapHas_eq_isSome]
  constructor
  · intro h
    obtain ⟨c, hc⟩ := Option.isSome_iff_exists.1 h
    exact ⟨c, mapGet_mem_of_eq_some hc⟩
  · rintro ⟨c, hc⟩
    rw [mapGet_eq_some_of_mem hc]
    rfl

theorem entries_nil_eq_empty {g : GridState} (h : g.entries = []) :
    g = createEmptyGrid := by
  obtain ⟨e, hn⟩ := g
  simp only at h
  subst h
  rfl

/-! ## Bounds lemmas -/

theorem foldl_min_le_init (l : List Int) (x : Int) : l.foldl min x ≤ x := by
  induction l generalizing x with
  | nil => simp
  | cons a t ih => exact le_trans (ih (min x a)) (min_le_left x a)

theorem foldl_min_le_mem (l : List Int) (x : Int) :
    ∀ a ∈ l, l.foldl min x ≤ a := by
  induction l generalizing x with
  | nil => simp
  | cons b t ih =>
      intro a ha
      rcases List.mem_cons.1 ha with rfl | ht
      · exact le_trans (foldl_min_le_init t (min x a)) (min_le_right x a)
      · exact ih (min x b) a ht

theorem le_foldl_min {l : List Int} {x c : Int} (hx : c ≤ x)
    (hl : ∀ a ∈ l, c ≤ a) : c ≤ l.foldl min x := by
  induction l generalizing x with
  | nil => simpa using hx
  | cons b t ih =>
      simp only [List.foldl_cons]
      exact ih (le_min hx (hl b (List.mem_cons_self b t)))
        (fun a ha => hl a (List.mem_cons_of_mem b ha))

theorem init_le_foldl_max (l : List Int) (x : Int) : x ≤ l.foldl max x := by
  induction l generalizing x with
  | nil => simp
  | cons a t ih => exact le_trans (le_max_left x a) (ih (max x a))

theorem mem_le_foldl_max (l : List Int) (x : Int) :
    ∀ a ∈ l, a ≤ l.foldl max x := by
  induction l generalizing x with
  | nil => simp
  | cons b t ih =>
      intro a ha
      rcases List.mem_cons.1 ha with rfl | ht
      · exact le_trans (le_max_right x a) (init_le_foldl_max t (max x a))
      · exact ih (max x b) a ht

theorem foldl_max_le {l : List Int} {x c : Int} (hx : x ≤ c)
    (hl : ∀ a ∈ l, a ≤ c) : l.foldl max x ≤ c := by
  induction l generalizing x with
  | nil => simpa using hx
  | cons b t ih =>
      simp only [List.foldl_cons]
      exact ih (max_le hx (hl b (List.mem_cons_self b t)))
        (fun a ha => hl a (List.mem_cons_of_mem b ha))

/-- Every occupied column lies between the computed bounds. -/
theorem bounds_le_of_mem {g : GridState} {e : Pos × CellData}
    (hm : e ∈ g.entries) :
    (getGridBounds g).1 ≤ e.1.1 ∧ e.1.1 ≤ (getGridBounds g).2 := by
  have hx : e.1.1 ∈ g.entries.map (fun e => e.1.1) :=
    List.mem_map_of_mem (fun e => e.1.1) hm
  unfold getGridBounds
  generalize hxs : g.entries.map (fun e => e.1.1) = xs at hx ⊢
  cases xs with
  | nil => simp at hx
  | cons x rest =>
      dsimp only
      rcases List.mem_cons.1 hx with rfl | ht
      · exact ⟨foldl_min_le_init rest e.1.1, init_le_foldl_max rest e.1.1⟩
      · exact ⟨foldl_min_le_mem rest x e.1.1 ht, mem_le_foldl_max rest x e.1.1 ht⟩

/-- The computed bounds lie inside any interval containing every occupied
column, provided the board is nonempty. -/
theorem bounds_within {g : GridState} {lo hi : Int} (hne : g.entries ≠ [])
    (h : ∀ e ∈ g.entries, lo ≤ e.1.1 ∧ e.1.1 ≤ hi) :
    lo ≤ (getGridBounds g).1 ∧ (getGridBounds g).2 ≤ hi := by
  have hall : ∀ a ∈ g.entries.map (fun e => e.1.1), lo ≤ a ∧ a ≤ hi := by
    intro a ha
    obtain ⟨e, he, rfl⟩ := List.mem_map.1 ha
    exact h e he
  have hne' : g.entries.map (fun e => e.1.1) ≠ [] := by
    simpa using hne
  unfold getGridBounds
  generalize hxs : g.entries.map (fun e => e.1.1) = xs at hall hne' ⊢
  cases xs with
  | nil => exact absurd rfl hne'
  | cons x rest =>
      dsimp only
      have hx := hall x (List.mem_cons_self x rest)
      refine ⟨le_foldl_min hx.1 ?_, foldl_max_le hx.2 ?_⟩
      · exact fun a ha => (hall a (List.mem_cons_of_mem x ha)).1
      · exact fun a ha => (hall a (List.mem_cons_of_mem x ha)).2

/-! ## Column height lemmas -/

theorem exists_gap (g : GridState) (cx : Int) :
    ∃ n, n ≤ g.entries.length ∧ mapHas g (cx, (n : Int)) = false := by
  by_contra hc
  push_neg at hc
  have hall : ∀ n : Nat, n ≤ g.entries.length → mapHas g (cx, (n : Int)) = true := by
    intro n hn
    have := hc n hn
    simpa [Bool.not_eq_false] using this
  -- the keys (cx, 0), …, (cx, length) are distinct members of the key list
  have hinj : ((List.range (g.entries.length + 1)).map
      (fun (n : Nat) => ((cx, (n : Int)) : Pos))).Nodup := by
    refine List.Nodup.map ?_ (List.nodup_range _)
    intro a b hab
    simpa using hab
  have hsub : ∀ q ∈ (List.range (g.entries.length + 1)).map
      (fun (n : Nat) => ((cx, (n : Int)) : Pos)), q ∈ g.entries.map (fun e => e.1) := by
    intro q hq
    obtain ⟨n, hn, rfl⟩ := List.mem_map.1 hq
    have hn' : n ≤ g.entries.length := Nat.lt_succ_iff.1 (List.mem_range.1 hn)
    obtain ⟨c, hc'⟩ := (mapHas_true_iff g (cx, (n : Int))).1 (hall n hn')
    exact List.mem_map.2 ⟨((cx, (n : Int)), c), hc', rfl⟩
  have hle := (List.subperm_of_subset hinj hsub).length_le
  rw [List.length_map, List.length_range, List.length_map] at hle
  omega

theorem colHeightAux_eq {g : GridState} {cx : Int} {h : Nat} :
    ∀ fuel y, y ≤ h → (∀ j, y ≤ j → j < h → mapHas g (cx, (j : Int)) = true) →
    mapHas g (cx, (h : Int)) = false → h < y + fuel →
    colHeightAux g cx fuel y = h := by
  intro fuel
  induction fuel with
  | zero => intro y hy _ _ hlt; omega
  | succ n ih =>
      intro y hy hbelow hgap hlt
      unfold colHeightAux
      rcases Nat.eq_or_lt_of_le hy with rfl | hylt
      · simp [hgap]
      · rw [hbelow y (le_refl y) hylt]
        simp only [if_true]
        exact ih (y + 1) hylt (fun j hj hjh => hbelow j (by omega) hjh) hgap (by omega)

/-- `getColumnHeight` computes the count of contiguously occupied cells of the
column starting at `y = 0`: everything below is occupied and the cell at the
height itself is free. -/
theorem getColumnHeight_spec (g : GridState) (cx : Int) :
    mapHas g (cx, (getColumnHeight g cx : Int)) = false ∧
    ∀ j : Nat, j < getColumnHeight g cx → mapHas g (cx, (j : Int)) = true := by
  obtain ⟨n, hn, hgap⟩ := exists_gap g cx
  have hpred : ∃ m : Nat, mapHas g (cx, (m : Int)) = false := ⟨n, hgap⟩
  let h := Nat.find hpred
  have hh : mapHas g (cx, (h : Int)) = false := Nat.find_spec hpred
  have hbelow : ∀ j, j < h → mapHas g (cx, (j : Int)) = true := by
    intro j hj
    have := Nat.find_min hpred hj
    simpa [Bool.not_eq_false] using this
  have hhn : h ≤ n := Nat.find_min' hpred hgap
  have heq : getColumnHeight g cx = h := by
    unfold getColumnHeight
    exact colHeightAux_eq (g.entries.length + 1) 0 (Nat.zero_le h)
      (fun j _ hjh => hbelow j hjh) hh (by omega)
  rw [heq]
  exact ⟨hh, hbelow⟩

/-! ## Integer range lemmas -/

theorem mem_intRange {lo hi a : Int} : a ∈ intRange lo hi ↔ lo ≤ a ∧ a ≤ hi := by
  unfold intRange
  constructor
  · intro h
    obtain ⟨i, hi', rfl⟩ := List.mem_map.1 h
    have := List.mem_range.1 hi'
    omega
  · rintro ⟨h1, h2⟩
    refine List.mem_map.2 ⟨(a - lo).toNat, List.mem_range.2 (by omega), by omega⟩

/-! ## `validateMove` characterization -/

/-- The short-side rule as a predicate. -/
def shortSideOk (g : GridState) (x y : Int) (o : Orientation) (p : Player) : Prop :=
  if o = Orientation.vertical then
    0 < y → cellMatches (mapGet g (x, y - 1)) p Orientation.vertical = false
  else
    cellMatches (mapGet g (x - 1, y)) p Orientation.horizontal = false ∧
    cellMatches (mapGet g (x + 2, y)) p Orientation.horizontal = false

theorem validateMove_eq_true_iff (g : GridState) (x y : Int) (o : Orientation)
    (p : Player) :
    validateMove g x y o p = true ↔
      y ≠ -1 ∧ checkWidthConstraint g x o = true ∧
      (g.entries = [] ∨ isConnectedToExisting g x y o = true) ∧
      shortSideOk g x y o p := by
  unfold validateMove shortSideOk
  rcases hg : g.entries with _ | ⟨e, rest⟩
  · split_ifs <;> simp_all
  · have hlen : 0 < g.entries.length := by rw [hg]; simp
    rw [← hg]
    split_ifs with h1 h2 h3 h4 h5 <;>
      simp_all [Bool.not_eq_true]

/-! ## Drop position characterization -/

theorem findDropPosition_vertical (g : GridState) (x : Int) :
    findDropPosition g x Orientation.vertical =
      (if (getColumnHeight g x : Int) + 1 ≥ 9 then -1 else (getColumnHeight g x : Int)) := by
  simp [findDropPosition, GRID_SIZE]

theorem findDropPosition_horizontal (g : GridState) (x : Int) :
    findDropPosition g x Orientation.horizontal =
      (if (max (getColumnHeight g x : Int) (getColumnHeight g (x + 1) : Int) ≠ 0 ∧
            (getColumnHeight g x : Int) ≠ (getColumnHeight g (x + 1) : Int)) ∨
          max (getColumnHeight g x : Int) (getColumnHeight g (x + 1) : Int) ≥ 9
        then -1
        else max (getColumnHeight g x : Int) (getColumnHeight g (x + 1) : Int)) := by
  simp only [findDropPosition, GRID_SIZE]
  split_ifs <;> first
    | rfl
    | omega
    | simp_all

/-! ## Move generator and `hasValidMove` -/

theorem mem_getAllPossibleMoves {g : GridState} {p : Player}
    {idf : Int → Orientation → String} {m : BlockData} :
    m ∈ getAllPossibleMoves g p idf ↔
      ∃ x o, x ∈ intRange (if g.entries.isEmpty then 0 else (getGridBounds g).1 - 2)
          (if g.entries.isEmpty then 0 else (getGridBounds g).2 + 2) ∧
        validateMove g x (findDropPosition g x o) o p = true ∧
        m = mkAiMove idf p x (findDropPosition g x o) o := by
  unfold getAllPossibleMoves
  simp only [List.mem_flatMap, List.mem_filterMap]
  constructor
  · rintro ⟨x, hx, o, ho, hsome⟩
    split at hsome
    · exact ⟨x, o, hx, by assumption, by simpa using hsome.symm⟩
    · simp at hsome
  · rintro ⟨x, o, hx, hval, rfl⟩
    refine ⟨x, hx, o, ?_, ?_⟩
    · cases o <;> simp
    · simp [hval]

theorem hasValidMove_of_valid {g : GridState} {p : Player} {x : Int}
    {o : Orientation} (hne : g.entries ≠ [])
    (hx : x ∈ intRange ((getGridBounds g).1 - GRID_SIZE) ((getGridBounds g).2 + GRID_SIZE))
    (hval : validateMove g x (findDropPosition g x o) o p = true) :
    hasValidMove g p = true := by
  unfold hasValidMove
  rw [if_neg (by simpa using hne)]
  refine List.any_eq_true.2 ⟨x, hx, ?_⟩
  refine List.any_eq_true.2 ⟨o, ?_, hval⟩
  cases o <;> simp

theorem hasValidMove_elim {g : GridState} {p : Player}
    (h : hasValidMove g p = true) (hne : g.entries ≠ []) :
    ∃ x o, ((getGridBounds g).1 - GRID_SIZE) ≤ x ∧ x ≤ ((getGridBounds g).2 + GRID_SIZE) ∧
      validateMove g x (findDropPosition g x o) o p = true := by
  unfold hasValidMove at h
  rw [if_neg (by simpa using hne)] at h
  obtain ⟨x, hx, hinner⟩ := List.any_eq_true.1 h
  obtain ⟨o, _, hval⟩ := List.any_eq_true.1 hinner
  exact ⟨x, o, (mem_intRange.1 hx).1, (mem_intRange.1 hx).2, hval⟩

/-- A placement that passes `validateMove` on a nonempty board is connected to
an existing cell, hence its x lies in the generator window `[minX-2, maxX+2]`. -/
theorem valid_x_in_window {g : GridState} {p : Player} {x y : Int}
    {o : Orientation} (hne : g.entries ≠ [])
    (hval : validateMove g x y o p = true) :
    (getGridBounds g).1 - 2 ≤ x ∧ x ≤ (getGridBounds g).2 + 2 := by
  have hchar := (validateMove_eq_true_iff g x y o p).1 hval
  rcases hchar.2.2.1 with hnil | hconn
  · exact absurd hnil hne
  · obtain ⟨q, hq, hhas⟩ := List.any_eq_true.1 hconn
    obtain ⟨c, hc⟩ := (mapHas_true_iff g q).1 hhas
    have hb := bounds_le_of_mem hc
    simp only at hb
    unfold connectPositions at hq
    rcases o <;> simp at hq <;>
      rcases hq with hq | hq | hq | hq | hq | hq <;>
        (subst hq; simp only at hb; omega)

theorem getAllPossibleMoves_empty_ne (p : Player) (idf : Int → Orientation → String) :
    getAllPossibleMoves createEmptyGrid p idf ≠ [] := by
  have hval : validateMove createEmptyGrid 0
      (findDropPosition createEmptyGrid 0 Orientation.vertical)
      Orientation.vertical p = true := by rfl
  have hmem : mkAiMove idf p 0 (findDropPosition createEmptyGrid 0 Orientation.vertical)
      Orientation.vertical ∈ getAllPossibleMoves createEmptyGrid p idf :=
    mem_getAllPossibleMoves.2
      ⟨0, Orientation.vertical, by simp [createEmptyGrid, mem_intRange], hval, rfl⟩
  exact List.ne_nil_of_mem hmem

/-- The generator window `[minX-2, maxX+2]` finds a legal move exactly when
the wider `hasValidMove` window `[minX-9, maxX+9]` does. -/
theorem moves_ne_nil_iff_hasValidMove (g : GridState) (p : Player)
    (idf : Int → Orientation → String) :
    getAllPossibleMoves g p idf ≠ [] ↔ hasValidMove g p = true := by
  rcases hg : g.entries with _ | ⟨e, rest⟩
  · have hempty := entries_nil_eq_empty hg
    subst hempty
    constructor
    · intro _
      rfl
    · intro _
      exact getAllPossibleMoves_empty_ne p idf
  · have hne : g.entries ≠ [] := by rw [hg]; simp
    have hnotempty : g.entries.isEmpty = false := by
      simpa [List.isEmpty_iff] using hne
    constructor
    · intro hmoves
      obtain ⟨m, hm⟩ := List.exists_mem_of_ne_nil _ hmoves
      obtain ⟨x, o, hx, hval, _⟩ := mem_getAllPossibleMoves.1 hm
      rw [hnotempty] at hx
      simp only [Bool.false_eq_true, if_false] at hx
      have hx' := mem_intRange.1 hx
      refine hasValidMove_of_valid hne (mem_intRange.2 ⟨?_, ?_⟩) hval <;>
        simp only [GRID_SIZE] <;> omega
    · intro hvalid
      obtain ⟨x, o, _, _, hval⟩ := hasValidMove_elim hvalid hne
      have hw := valid_x_in_window hne hval
      refine List.ne_nil_of_mem (mem_getAllPossibleMoves.2 ⟨x, o, ?_, hval, rfl⟩)
      rw [hnotempty]
      simp only [Bool.false_eq_true, if_false]
      exact mem_intRange.2 ⟨hw.1, hw.2⟩

/-- Every generated move is legal: its y is the drop position, it passes
`validateMove`, and it belongs to the requested player. -/
theorem getAllPossibleMoves_legal {g : GridState} {p : Player}
    {idf : Int → Orientation → String} {m : BlockData}
    (hm : m ∈ getAllPossibleMoves g p idf) :
    m.player = p ∧ m.y = findDropPosition g m.x m.orientation ∧
      validateMove g m.x m.y m.orientation m.player = true := by
  obtain ⟨x, o, _, hval, rfl⟩ := mem_getAllPossibleMoves.1 hm
  exact ⟨rfl, rfl, hval⟩

/-! ## `getBestMove` returns a generated move -/

theorem pickFrom_mem {α : Type} {l : List α} (i : Nat) (d : α) (h : l ≠ []) :
    pickFrom l i d ∈ l := by
  unfold pickFrom
  have hlen : 0 < l.length := List.length_pos_of_ne_nil h
  have hlt : i % l.length < l.length := Nat.mod_lt i hlen
  rw [List.getD_eq_getElem?_getD, List.getElem?_eq_getElem hlt]
  exact List.getElem_mem hlt

theorem getD_mem {α : Type} {l : List α} {i : Nat} (d : α) (h : i < l.length) :
    l.getD i d ∈ l := by
  rw [List.getD_eq_getElem?_getD, List.getElem?_eq_getElem h]
  exact List.getElem_mem h

theorem blockingMovesOf_subset {g : GridState} {opponent : Player}
    {shuffled : List BlockData} {idf : Int → Orientation → String}
    {m : BlockData} (hm : m ∈ blockingMovesOf g opponent shuffled idf) :
    m ∈ shuffled := by
  unfold blockingMovesOf at hm
  obtain ⟨move, hmove, hin⟩ := List.mem_flatMap.1 hm
  obtain ⟨oppMove, _, hsome⟩ := List.mem_filterMap.1 hin
  split at hsome
  · dsimp only at hsome
    split at hsome
    · simp at hsome
    · simp only [Option.some.injEq] at hsome
      subst hsome
      exact hmove
  · simp at hsome

theorem xmax_fin (ev : Int) {best : XInt}
    (h : best = XInt.negInf ∨ ∃ n : Int, best = XInt.fin n) :
    ∃ n : Int, xmax best (XInt.fin ev) = XInt.fin n := by
  rcases h with rfl | ⟨n, rfl⟩
  · exact ⟨ev, rfl⟩
  · unfold xmax
    split <;> exact ⟨_, rfl⟩

theorem xmin_fin (ev : Int) {best : XInt}
    (h : best = XInt.posInf ∨ ∃ n : Int, best = XInt.fin n) :
    ∃ n : Int, xmin best (XInt.fin ev) = XInt.fin n := by
  rcases h with rfl | ⟨n, rfl⟩
  · exact ⟨ev, rfl⟩
  · unfold xmin
    split <;> exact ⟨_, rfl⟩

theorem abLoop_fin_max (next : GridState → XInt → XInt → XInt) (g : GridState)
    (hnext : ∀ g' a' b', ∃ n : Int, next g' a' b' = XInt.fin n) :
    ∀ (moves : List BlockData) (alpha beta best : XInt),
      (best = XInt.negInf ∨ ∃ n : Int, best = XInt.fin n) →
      ((∃ n : Int, best = XInt.fin n) ∨ moves ≠ []) →
      ∃ n : Int, abLoop next g true moves alpha beta best = XInt.fin n := by
  intro moves
  induction moves with
  | nil =>
      intro alpha beta best _ hor
      rcases hor with hfin | hne
      · simpa [abLoop] using hfin
      · exact absurd rfl hne
  | cons m rest ih =>
      intro alpha beta best hinv _
      obtain ⟨ev, hev⟩ := hnext (applyBlockToGrid g m) alpha beta
      have hb := xmax_fin ev hinv
      simp only [abLoop, hev, if_true]
      split
      · exact hb
      · exact ih _ _ _ (Or.inr hb) (Or.inl hb)

theorem abLoop_fin_min (next : GridState → XInt → XInt → XInt) (g : GridState)
    (hnext : ∀ g' a' b', ∃ n : Int, next g' a' b' = XInt.fin n) :
    ∀ (moves : List BlockData) (alpha beta best : XInt),
      (best = XInt.posInf ∨ ∃ n : Int, best = XInt.fin n) →
      ((∃ n : Int, best = XInt.fin n) ∨ moves ≠ []) →
      ∃ n : Int, abLoop next g false moves alpha beta best = XInt.fin n := by
  intro moves
  induction moves with
  | nil =>
      intro alpha beta best _ hor
      rcases hor with hfin | hne
      · simpa [abLoop] using hfin
      · exact absurd rfl hne
  | cons m rest ih =>
      intro alpha beta best hinv _
      obtain ⟨ev, hev⟩ := hnext (applyBlockToGrid g m) alpha beta
      have hb := xmin_fin ev hinv
      simp only [abLoop, hev, Bool.false_eq_true, if_false]
      split
      · exact hb
      · exact ih _ _ _ (Or.inr hb) (Or.inl hb)

theorem minimax_zero_true (g : GridState) (p : Player)
    (idf : Int → Orientation → String) (alpha beta : XInt) :
    minimax g 0 true p idf alpha beta =
      if (checkWin g p).isSome then XInt.fin (SCORES_WIN + ((0 : Nat) : Int))
      else XInt.fin (getHeuristicScore g p) := rfl

theorem minimax_zero_false (g : GridState) (p : Player)
    (idf : Int → Orientation → String) (alpha beta : XInt) :
    minimax g 0 false p idf alpha beta =
      if (checkWin g (oppOf p)).isSome then XInt.fin (-(SCORES_WIN + ((0 : Nat) : Int)))
      else XInt.fin (getHeuristicScore g p) := rfl

theorem minimax_succ_true (g : GridState) (d : Nat) (p : Player)
    (idf : Int → Orientation → String) (alpha beta : XInt) :
    minimax g (d + 1) true p idf alpha beta =
      if (checkWin g p).isSome then XInt.fin (SCORES_WIN + ((d + 1 : Nat) : Int))
      else if (getAllPossibleMoves g p idf).isEmpty then XInt.fin 0
      else abLoop (fun g' a b => minimax g' d false p idf a b) g true
        (getAllPossibleMoves g p idf) alpha beta XInt.negInf := rfl

theorem minimax_succ_false (g : GridState) (d : Nat) (p : Player)
    (idf : Int → Orientation → String) (alpha beta : XInt) :
    minimax g (d + 1) false p idf alpha beta =
      if (checkWin g (oppOf p)).isSome then XInt.fin (-(SCORES_WIN + ((d + 1 : Nat) : Int)))
      else if (getAllPossibleMoves g (oppOf p) idf).isEmpty then XInt.fin 0
      else abLoop (fun g' a b => minimax g' d true p idf a b) g false
        (getAllPossibleMoves g (oppOf p) idf) alpha beta XInt.posInf := rfl

theorem minimax_fin (depth : Nat) :
    ∀ (g : GridState) (isMax : Bool) (p : Player)
      (idf : Int → Orientation → String) (alpha beta : XInt),
      ∃ n : Int, minimax g depth isMax p idf alpha beta = XInt.fin n := by
  induction depth with
  | zero =>
      intro g isMax p idf alpha beta
      cases isMax
      · rw [minimax_zero_false]
        split <;> exact ⟨_, rfl⟩
      · rw [minimax_zero_true]
        split <;> exact ⟨_, rfl⟩
  | succ d ih =>
      intro g isMax p idf alpha beta
      cases isMax
      · rw [minimax_succ_false]
        split
        · exact ⟨_, rfl⟩
        · split
          · exact ⟨_, rfl⟩
          · next hne =>
              refine abLoop_fin_min _ g (fun g' a' b' => ih g' true p idf a' b') _
                alpha beta XInt.posInf (Or.inl rfl) (Or.inr ?_)
              simpa [List.isEmpty_iff] using hne
      · rw [minimax_succ_true]
        split
        · exact ⟨_, rfl⟩
        · split
          · exact ⟨_, rfl⟩
          · next hne =>
              refine abLoop_fin_max _ g (fun g' a' b' => ih g' false p idf a' b') _
                alpha beta XInt.negInf (Or.inl rfl) (Or.inr ?_)
              simpa [List.isEmpty_iff] using hne

theorem scoreAtLeast_self (b den : Int) (hden : 0 < den) :
    scoreAtLeast (XInt.fin b) (XInt.fin b) den = true := by
  unfold scoreAtLeast
  rw [decide_eq_true_iff]
  have h0 : (0 : Rat) ≤ |(b : Rat)| / (den : Rat) := by
    apply div_nonneg (abs_nonneg _)
    exact_mod_cast le_of_lt hden
  linarith

theorem tieBreak_easy (r : RandSrc) (sorted : List (BlockData × XInt))
    (best : BlockData × XInt) :
    tieBreak r AIDifficulty.easy sorted best = some best.1 := rfl

theorem tieBreak_medium (r : RandSrc) (sorted : List (BlockData × XInt))
    (best : BlockData × XInt) :
    tieBreak r AIDifficulty.medium sorted best =
      if 1 < (sorted.filter (fun ms => scoreAtLeast ms.2 best.2 10)).length ∧
          r.medCoin then
        some (pickFrom (sorted.filter (fun ms => scoreAtLeast ms.2 best.2 10))
          r.medPick (defaultBlock, XInt.fin 0)).1
      else ((sorted.filter (fun ms => scoreAtLeast ms.2 best.2 10)).head?).map
        (fun ms => ms.1) := rfl

theorem tieBreak_hard (r : RandSrc) (sorted : List (BlockData × XInt))
    (best : BlockData × XInt) :
    tieBreak r AIDifficulty.hard sorted best =
      if 1 < (sorted.filter (fun ms => scoreAtLeast ms.2 best.2 20)).length ∧
          r.hardCoin then
        some ((sorted.filter (fun ms => scoreAtLeast ms.2 best.2 20)).getD
          (r.hardPick % min (sorted.filter
            (fun ms => scoreAtLeast ms.2 best.2 20)).length 2)
          (defaultBlock, XInt.fin 0)).1
      else some best.1 := rfl

theorem tieBreak_mem (r : RandSrc) (difficulty : AIDifficulty)
    (sorted : List (BlockData × XInt)) (best : BlockData × XInt)
    (hbest : best ∈ sorted) (hfin : ∃ n : Int, best.2 = XInt.fin n) :
    ∃ ms ∈ sorted, tieBreak r difficulty sorted best = some ms.1 := by
  obtain ⟨b, hb⟩ := hfin
  cases difficulty with
  | easy => exact ⟨best, hbest, tieBreak_easy r sorted best⟩
  | medium =>
      have hbestgood : best ∈ sorted.filter (fun ms => scoreAtLeast ms.2 best.2 10) := by
        rw [List.mem_filter]
        refine ⟨hbest, ?_⟩
        rw [hb]
        exact scoreAtLeast_self b 10 (by norm_num)
      have hgoodne : sorted.filter (fun ms => scoreAtLeast ms.2 best.2 10) ≠ [] :=
        List.ne_nil_of_mem hbestgood
      rw [tieBreak_medium]
      split
      · have hp := pickFrom_mem r.medPick (defaultBlock, XInt.fin 0) hgoodne
        exact ⟨_, (List.mem_filter.1 hp).1, rfl⟩
      · rcases hh : (sorted.filter (fun ms => scoreAtLeast ms.2 best.2 10)).head?
          with _ | ⟨h0⟩
        · exact absurd (List.head?_eq_none_iff.1 hh) hgoodne
        · have hmem0 := List.mem_of_mem_head? hh
          refine ⟨h0, (List.mem_filter.1 hmem0).1, ?_⟩
          rw [hh]
          rfl
  | hard =>
      have hbesttc : best ∈ sorted.filter (fun ms => scoreAtLeast ms.2 best.2 20) := by
        rw [List.mem_filter]
        refine ⟨hbest, ?_⟩
        rw [hb]
        exact scoreAtLeast_self b 20 (by norm_num)
      have htcne : sorted.filter (fun ms => scoreAtLeast ms.2 best.2 20) ≠ [] :=
        List.ne_nil_of_mem hbesttc
      have hlen : 0 < (sorted.filter (fun ms => scoreAtLeast ms.2 best.2 20)).length :=
        List.length_pos_of_ne_nil htcne
      rw [tieBreak_hard]
      split
      · have hidx : r.hardPick % min (sorted.filter
            (fun ms => scoreAtLeast ms.2 best.2 20)).length 2 <
            (sorted.filter (fun ms => scoreAtLeast ms.2 best.2 20)).length := by
          have h2 : 0 < min (sorted.filter
              (fun ms => scoreAtLeast ms.2 best.2 20)).length 2 := by omega
          have := Nat.mod_lt r.hardPick h2
          omega
        have hp := getD_mem (defaultBlock, XInt.fin 0) hidx
        exact ⟨_, (List.mem_filter.1 hp).1, rfl⟩
      · exact ⟨best, hbest, rfl⟩

/-- The minimax stage always returns one of the shuffled candidates. -/
theorem minimaxStage_mem (g : GridState) (p : Player) (difficulty : AIDifficulty)
    (r : RandSrc) (idf : Int → Orientation → String)
    (shuffledMoves : List BlockData) (hne : shuffledMoves ≠ []) :
    ∃ m ∈ shuffledMoves, minimaxStage g p difficulty r idf shuffledMoves = some m := by
  have hperm : (sortedRoot g p difficulty idf shuffledMoves).Perm
      (rootScores g p difficulty idf shuffledMoves) :=
    List.mergeSort_perm (rootScores g p difficulty idf shuffledMoves) _
  have hmemtop : ∀ ms ∈ sortedRoot g p difficulty idf shuffledMoves,
      ms.1 ∈ shuffledMoves := by
    intro ms hms
    have := hperm.mem_iff.1 hms
    obtain ⟨m, hm, rfl⟩ := List.mem_map.1 this
    exact hm
  have hfin : ∀ ms ∈ sortedRoot g p difficulty idf shuffledMoves,
      ∃ n : Int, ms.2 = XInt.fin n := by
    intro ms hms
    have := hperm.mem_iff.1 hms
    obtain ⟨m, _, rfl⟩ := List.mem_map.1 this
    exact minimax_fin (searchDepth difficulty) (applyBlockToGrid g m) false p idf
      XInt.negInf XInt.posInf
  rcases hs : sortedRoot g p difficulty idf shuffledMoves with _ | ⟨best, rest⟩
  · exfalso
    rw [hs] at hperm
    have : rootScores g p difficulty idf shuffledMoves = [] :=
      List.perm_nil.1 hperm.symm
    exact hne (List.map_eq_nil_iff.1 this)
  · have heq : minimaxStage g p difficulty r idf shuffledMoves =
        tieBreak r difficulty (best :: rest) best := by
      unfold minimaxStage
      rw [hs]
    have hbestmem : best ∈ best :: rest := List.mem_cons_self best rest
    obtain ⟨ms, hms, htb⟩ := tieBreak_mem r difficulty (best :: rest) best hbestmem
      (hfin best (by rw [hs]; exact hbestmem))
    refine ⟨ms.1, hmemtop ms (by rw [hs]; exact hms), ?_⟩
    rw [heq, htb]

/-- `getBestMove` returns `none` exactly on an empty generated move list, and
otherwise one of the generated moves — for every difficulty and every outcome
of the injected random draws whose shuffle is a permutation. -/
theorem getBestMove_mem (g : GridState) (p : Player) (difficulty : AIDifficulty)
    (r : RandSrc) (idf : Int → Orientation → String)
    (hshuffle : ∀ l : List BlockData, (r.shuffle l).Perm l) :
    (getAllPossibleMoves g p idf = [] → getBestMove g p difficulty r idf = none) ∧
    (getAllPossibleMoves g p idf ≠ [] →
      ∃ m ∈ getAllPossibleMoves g p idf, getBestMove g p difficulty r idf = some m) := by
  constructor
  · intro h
    unfold getBestMove
    simp [h]
  · intro hne
    have hperm := hshuffle (getAllPossibleMoves g p idf)
    have hsne : r.shuffle (getAllPossibleMoves g p idf) ≠ [] := by
      intro hnil
      rw [hnil] at hperm
      exact hne (List.perm_nil.1 hperm.symm)
    have hmem_of_shuffled : ∀ m ∈ r.shuffle (getAllPossibleMoves g p idf),
        m ∈ getAllPossibleMoves g p idf := fun m hm => hperm.mem_iff.1 hm
    unfold getBestMove
    rw [if_neg (by simpa [List.isEmpty_iff] using hne)]
    dsimp only
    split
    · exact ⟨_, hmem_of_shuffled _ (pickFrom_mem r.easyPick defaultBlock hsne), rfl⟩
    · split
      · next hwin =>
          have hwinne : (r.shuffle (getAllPossibleMoves g p idf)).filter
              (fun m => (checkWin (applyBlockToGrid g m) p).isSome) ≠ [] := by
            simpa [List.isEmpty_iff] using hwin
          have hp := pickFrom_mem r.winPick defaultBlock hwinne
          exact ⟨_, hmem_of_shuffled _ (List.mem_filter.1 hp).1, rfl⟩
      · split
        · next hblock =>
            have hblockne : blockingMovesOf g (oppOf p)
                (r.shuffle (getAllPossibleMoves g p idf)) idf ≠ [] := by
              simpa [List.isEmpty_iff] using hblock
            have hp := pickFrom_mem r.blockPick defaultBlock hblockne
            exact ⟨_, hmem_of_shuffled _ (blockingMovesOf_subset hp), rfl⟩
        · obtain ⟨m, hm, hms⟩ := minimaxStage_mem g p difficulty r idf _ hsne
          exact ⟨m, hmem_of_shuffled m hm, hms⟩

/-! ## `checkWin` characterization -/

/-- The board holds a cell of `p` at `q`. -/
def ownedAtB (g : GridState) (p : Player) (q : Pos) : Bool :=
  match mapGet g q with
  | some c => decide (c.player = p)
  | none => false

theorem ownedAtB_true_iff {g : GridState} {p : Player} {q : Pos} :
    ownedAtB g p q = true ↔ ∃ c, mapGet g q = some c ∧ c.player = p := by
  unfold ownedAtB
  cases h : mapGet g q <;> simp

theorem mem_playerCells_iff {g : GridState} {p : Player} {q : Pos} :
    q ∈ playerCells g p ↔ ownedAtB g p q = true := by
  unfold playerCells
  rw [ownedAtB_true_iff]
  constructor
  · intro hq
    obtain ⟨e, he, rfl⟩ := List.mem_map.1 hq
    have hf := List.mem_filter.1 he
    refine ⟨e.2, mapGet_eq_some_of_mem ?_, by simpa using hf.2⟩
    rw [show ((e.1, e.2) : Pos × CellData) = e from rfl]
    exact hf.1
  · rintro ⟨c, hc, hp⟩
    have hm := mapGet_mem_of_eq_some hc
    exact List.mem_map.2 ⟨(q, c), List.mem_filter.2 ⟨hm, by simpa using hp⟩, rfl⟩

theorem lineExt_succ_owned {g : GridState} {p : Player} {x y dx dy : Int} {n : Nat}
    (h : ownedAtB g p (x + dx, y + dy) = true) :
    lineExt g p x y dx dy (n + 1) = (x + dx, y + dy) :: lineExt g p (x + dx) (y + dy) dx dy n := by
  obtain ⟨c, hc, hcp⟩ := ownedAtB_true_iff.1 h
  simp [lineExt, hc, hcp]

theorem lineExt_succ_not {g : GridState} {p : Player} {x y dx dy : Int} {n : Nat}
    (h : ownedAtB g p (x + dx, y + dy) = false) :
    lineExt g p x y dx dy (n + 1) = [] := by
  unfold ownedAtB at h
  rcases hc : mapGet g (x + dx, y + dy) with _ | c
  · simp [lineExt, hc]
  · rw [hc] at h
    simp only [decide_eq_false_iff_not] at h
    simp [lineExt, hc, h]

theorem lineExt_owned {g : GridState} {p : Player} :
    ∀ (n : Nat) (x y dx dy : Int), ∀ q ∈ lineExt g p x y dx dy n,
      ownedAtB g p q = true := by
  intro n
  induction n with
  | zero => simp [lineExt]
  | succ n ih =>
      intro x y dx dy q hq
      cases ho : ownedAtB g p (x + dx, y + dy) with
      | false =>
          rw [lineExt_succ_not ho] at hq
          simp at hq
      | true =>
          rw [lineExt_succ_owned ho] at hq
          rcases List.mem_cons.1 hq with rfl | ht
          · exact ho
          · exact ih (x + dx) (y + dy) dx dy q ht

theorem lineExt_shape {g : GridState} {p : Player} :
    ∀ (n : Nat) (x y dx dy : Int), ∃ k ≤ n,
      lineExt g p x y dx dy n =
        (List.range k).map (fun (i : Nat) => (x + dx * ((i : Int) + 1), y + dy * ((i : Int) + 1))) := by
  intro n
  induction n with
  | zero => intro x y dx dy; exact ⟨0, le_refl 0, by simp [lineExt]⟩
  | succ n ih =>
      intro x y dx dy
      cases ho : ownedAtB g p (x + dx, y + dy) with
      | false => exact ⟨0, Nat.zero_le _, by simp [lineExt_succ_not ho]⟩
      | true =>
          obtain ⟨k, hk, hext⟩ := ih (x + dx) (y + dy) dx dy
          refine ⟨k + 1, by omega, ?_⟩
          rw [lineExt_succ_owned ho, hext, List.range_succ_eq_map]
          simp only [List.map_cons, List.map_map, List.cons.injEq]
          refine ⟨by simp [Prod.mk.injEq], ?_⟩
          apply List.map_congr_left
          intro i _
          simp only [Function.comp, Prod.mk.injEq]
          constructor <;> push_cast <;> ring

theorem lineExt_eq_of_owned {g : GridState} {p : Player} :
    ∀ (n : Nat) (x y dx dy : Int),
      (∀ i : Nat, 1 ≤ i → i ≤ n → ownedAtB g p (x + dx * i, y + dy * i) = true) →
      lineExt g p x y dx dy n =
        (List.range n).map (fun (i : Nat) => (x + dx * ((i : Int) + 1), y + dy * ((i : Int) + 1))) := by
  intro n
  induction n with
  | zero => intro x y dx dy _; simp [lineExt]
  | succ n ih =>
      intro x y dx dy h
      have h1 : ownedAtB g p (x + dx, y + dy) = true := by
        have := h 1 (le_refl 1) (by omega)
        simpa using this
      rw [lineExt_succ_owned h1]
      have hrest := ih (x + dx) (y + dy) dx dy (fun i hi1 hin => by
        have := h (i + 1) (by omega) (by omega)
        have harith : (x + dx * ((i : Int) + 1), y + dy * ((i : Int) + 1)) =
            (x + dx + dx * (i : Int), y + dy + dy * (i : Int)) := by
          simp only [Prod.mk.injEq]
          constructor <;> ring
        rw [show ((i + 1 : Nat) : Int) = (i : Int) + 1 from by push_cast; ring] at this
        rw [← harith]
        exact this)
      rw [hrest, List.range_succ_eq_map]
      simp only [List.map_cons, List.map_map, List.cons.injEq]
      refine ⟨by simp [Prod.mk.injEq], ?_⟩
      apply List.map_congr_left
      intro i _
      simp only [Function.comp, Prod.mk.injEq]
      constructor <;> push_cast <;> ring

theorem winLineAt_length_iff {g : GridState} {p : Player} {x y dx dy : Int} :
    WIN_LENGTH ≤ (winLineAt g p x y dx dy).length ↔
      ∀ i : Nat, 1 ≤ i → i ≤ 4 → ownedAtB g p (x + dx * i, y + dy * i) = true := by
  have h5 : WIN_LENGTH = 5 := rfl
  constructor
  · intro hlen
    obtain ⟨k, hk, hext⟩ := lineExt_shape (WIN_LENGTH - 1) x y dx dy
    have hwl : (winLineAt g p x y dx dy).length =
        (lineExt g p x y dx dy (WIN_LENGTH - 1)).length + 1 := by
      unfold winLineAt
      exact List.length_cons _ _
    have hklen : (lineExt g p x y dx dy (WIN_LENGTH - 1)).length = k := by
      rw [hext]
      simp
    have hk4 : k = 4 := by
      rw [hwl, hklen] at hlen
      rw [h5] at hlen hk
      omega
    intro i hi1 hi4
    have hcast : ((i - 1 : Nat) : Int) = (i : Int) - 1 := by omega
    have hmem : (x + dx * i, y + dy * i) ∈ lineExt g p x y dx dy (WIN_LENGTH - 1) := by
      rw [hext, hk4]
      refine List.mem_map.2 ⟨i - 1, List.mem_range.2 (by omega), ?_⟩
      rw [hcast]
      simp only [Prod.mk.injEq]
      constructor <;> ring
    exact lineExt_owned (WIN_LENGTH - 1) x y dx dy _ hmem
  · intro h
    have hext := lineExt_eq_of_owned (WIN_LENGTH - 1) x y dx dy
      (fun i hi1 hin => h i hi1 (by rw [h5] at hin; omega))
    unfold winLineAt
    rw [hext]
    simp [h5]

theorem findSome?_isSome_of_mem {α β : Type} {l : List α} {f : α → Option β}
    {a : α} (ha : a ∈ l) (h : (f a).isSome) : (l.findSome? f).isSome := by
  rcases hr : l.findSome? f with _ | b
  · rw [List.findSome?_eq_none_iff] at hr
    rw [hr a ha] at h
    simp at h
  · rfl

theorem scanCell_eq_some_shape {g : GridState} {p : Player} {q : Pos}
    {l : List Pos} (h : scanCell g p q = some l) :
    ∃ dx dy : Int, (dx, dy) ∈ directions ∧
      l = (List.range WIN_LENGTH).map
        (fun (i : Nat) => (q.1 + dx * (i : Int), q.2 + dy * (i : Int))) ∧
      ∀ i : Nat, 1 ≤ i → i ≤ 4 → ownedAtB g p (q.1 + dx * i, q.2 + dy * i) = true := by
  obtain ⟨d, hd, hsome⟩ := List.exists_of_findSome?_eq_some h
  dsimp only at hsome
  refine ⟨d.1, d.2, by simpa using hd, ?_, ?_⟩
  · split at hsome
    · next hlen =>
        have howned := winLineAt_length_iff.1 hlen
        have hext := lineExt_eq_of_owned (WIN_LENGTH - 1) q.1 q.2 d.1 d.2
          (fun i hi1 hin => howned i hi1 (by unfold WIN_LENGTH at hin; omega))
        simp only [Option.some.injEq] at hsome
        rw [← hsome]
        unfold winLineAt
        rw [hext]
        rw [show WIN_LENGTH = (WIN_LENGTH - 1) + 1 from rfl, List.range_succ_eq_map]
        simp only [List.map_cons, List.map_map, List.cons.injEq,
          Nat.add_sub_cancel]
        refine ⟨by simp [Prod.mk.injEq], ?_⟩
        apply List.map_congr_left
        intro i _
        simp only [Function.comp, Prod.mk.injEq]
        constructor <;> push_cast <;> ring
    · simp at hsome
  · split at hsome
    · next hlen => exact winLineAt_length_iff.1 hlen
    · simp at hsome

theorem scanCell_isSome_of_window {g : GridState} {p : Player} {q : Pos}
    {dx dy : Int} (hd : (dx, dy) ∈ directions)
    (h : ∀ i : Nat, 1 ≤ i → i ≤ 4 → ownedAtB g p (q.1 + dx * i, q.2 + dy * i) = true) :
    (scanCell g p q).isSome := by
  refine findSome?_isSome_of_mem hd ?_
  dsimp only
  split
  · rfl
  · next hlen => exact absurd (winLineAt_length_iff.2 h) hlen

/-- `checkWin` finds a win exactly when some length-5 window in one of the
four directions is entirely owned by `p` (including its start cell). -/
theorem checkWin_isSome_iff (g : GridState) (p : Player) :
    (checkWin g p).isSome = true ↔
      ∃ x y dx dy : Int, (dx, dy) ∈ directions ∧
        ∀ i : Nat, i ≤ 4 → ownedAtB g p (x + dx * i, y + dy * i) = true := by
  constructor
  · intro h
    obtain ⟨l, hl⟩ := Option.isSome_iff_exists.1 h
    obtain ⟨q, hq, hscan⟩ := List.exists_of_findSome?_eq_some hl
    obtain ⟨dx, dy, hd, _, howned⟩ := scanCell_eq_some_shape hscan
    refine ⟨q.1, q.2, dx, dy, hd, ?_⟩
    intro i hi
    rcases Nat.eq_zero_or_pos i with rfl | hpos
    · simpa using mem_playerCells_iff.1 hq
    · exact howned i hpos hi
  · rintro ⟨x, y, dx, dy, hd, h⟩
    have h0 : ownedAtB g p (x, y) = true := by
      have := h 0 (by omega)
      simpa using this
    have hq : ((x, y) : Pos) ∈ playerCells g p := mem_playerCells_iff.2 h0
    have hscan : (scanCell g p (x, y)).isSome :=
      scanCell_isSome_of_window hd (fun i hi1 hi4 => h i hi4)
    exact findSome?_isSome_of_mem hq hscan

/-- The shape of any win returned by `checkWin`: exactly `WIN_LENGTH`
coordinates, all owned by the player, consecutive unit steps from the first
coordinate along a single scan direction. -/
theorem checkWin_some_shape {g : GridState} {p : Player} {l : List Pos}
    (h : checkWin g p = some l) :
    l.length = WIN_LENGTH ∧ (∀ q ∈ l, ownedAtB g p q = true) ∧
      ∃ x y dx dy : Int, (dx, dy) ∈ directions ∧
        l = (List.range WIN_LENGTH).map
          (fun (i : Nat) => (x + dx * (i : Int), y + dy * (i : Int))) := by
  obtain ⟨q, hq, hscan⟩ := List.exists_of_findSome?_eq_some h
  obtain ⟨dx, dy, hd, hshape, howned⟩ := scanCell_eq_some_shape hscan
  have hq0 : ownedAtB g p q = true := mem_playerCells_iff.1 hq
  refine ⟨by rw [hshape]; simp, ?_, q.1, q.2, dx, dy, hd, hshape⟩
  intro r hr
  rw [hshape] at hr
  obtain ⟨i, hi, rfl⟩ := List.mem_map.1 hr
  have hi5 := List.mem_range.1 hi
  rcases Nat.eq_zero_or_pos i with rfl | hpos
  · simpa using hq0
  · exact howned i hpos (by unfold WIN_LENGTH at hi5; omega)

/-- The winning row of the §8 win scenario. -/
def row5 : List Pos := [(0, 0), (1, 0), (2, 0), (3, 0), (4, 0)]

theorem scanCell_none_of_witness {g : GridState} {p : Player} {q : Pos}
    (h : ∀ d ∈ directions, ∃ i : Nat, 1 ≤ i ∧ i ≤ 4 ∧
      ownedAtB g p (q.1 + d.1 * i, q.2 + d.2 * i) = false) :
    scanCell g p q = none := by
  unfold scanCell
  rw [List.findSome?_eq_none_iff]
  intro d hd
  dsimp only
  split
  · next hlen =>
      obtain ⟨i, hi1, hi4, hfalse⟩ := h d hd
      have := winLineAt_length_iff.1 hlen i hi1 hi4
      rw [hfalse] at this
      exact absurd this (by simp)
  · rfl

theorem findSome?_of_unique {α β : Type} {f : α → Option β} {a0 : α} {b : β} :
    ∀ l : List α, a0 ∈ l → f a0 = some b → (∀ a ∈ l, a ≠ a0 → f a = none) →
      l.findSome? f = some b := by
  intro l
  induction l with
  | nil => simp
  | cons hd tl ih =>
      intro hmem hf0 hnone
      by_cases hh : hd = a0
      · subst hh
        rw [List.findSome?_cons, hf0]
      · have hnil : f hd = none := hnone hd (List.mem_cons_self _ _) hh
        rw [List.findSome?_cons, hnil]
        refine ih ?_ hf0 (fun a ha hne => hnone a (List.mem_cons_of_mem _ ha) hne)
        rcases List.mem_cons.1 hmem with rfl | hta
        · exact absurd rfl hh
        · exact hta

/-- §8 win scenario: if the cells of `p` are exactly the row
`(0,0) … (4,0)`, then `checkWin` returns exactly that coordinate list in
ascending x order. -/
theorem checkWin_row_scenario (g : GridState) (p : Player)
    (hw : ∀ q : Pos, ownedAtB g p q = true ↔ q ∈ row5) :
    checkWin g p = some row5 := by
  have hW : ∀ a b : Int, ((a, b) : Pos) ∉ row5 → ownedAtB g p (a, b) = false := by
    intro a b hab
    cases hb : ownedAtB g p (a, b) with
    | false => rfl
    | true => exact absurd ((hw (a, b)).1 hb) hab
  have h00 : ((0, 0) : Pos) ∈ playerCells g p :=
    mem_playerCells_iff.2 ((hw (0, 0)).2 (by decide))
  have hsub : ∀ q ∈ playerCells g p, q ∈ row5 :=
    fun q hq => (hw q).1 (mem_playerCells_iff.1 hq)
  have hscan0 : scanCell g p ((0 : Int), (0 : Int)) = some row5 := by
    have howned : ∀ i : Nat, 1 ≤ i → i ≤ 4 →
        ownedAtB g p ((0 : Int) + 1 * (i : Int), (0 : Int) + 0 * (i : Int)) = true := by
      intro i hi1 hi4
      refine (hw _).2 ?_
      interval_cases i <;> decide
    have hext := lineExt_eq_of_owned 4 0 0 1 0 howned
    have hwl : winLineAt g p 0 0 1 0 = row5 := by
      unfold winLineAt
      rw [show WIN_LENGTH - 1 = 4 from rfl, hext]
      rfl
    unfold scanCell
    rw [show directions = [((1 : Int), (0 : Int)), (0, 1), (1, 1), (1, -1)] from rfl,
      List.findSome?_cons]
    dsimp only
    rw [hwl]
    simp [row5, WIN_LENGTH]
  have hother : ∀ q ∈ playerCells g p, q ≠ ((0 : Int), (0 : Int)) →
      scanCell g p q = none := by
    intro q hq hne
    have hrow := hsub q hq
    have hcases : q = ((1 : Int), (0 : Int)) ∨ q = ((2 : Int), (0 : Int)) ∨
        q = ((3 : Int), (0 : Int)) ∨ q = ((4 : Int), (0 : Int)) := by
      simp only [row5, List.mem_cons, List.not_mem_nil, or_false] at hrow
      rcases hrow with h | h | h | h | h
      · exact absurd h hne
      · exact Or.inl h
      · exact Or.inr (Or.inl h)
      · exact Or.inr (Or.inr (Or.inl h))
      · exact Or.inr (Or.inr (Or.inr h))
    apply scanCell_none_of_witness
    intro d hd
    have hdirs : d = ((1 : Int), (0 : Int)) ∨ d = ((0 : Int), (1 : Int)) ∨
        d = ((1 : Int), (1 : Int)) ∨ d = ((1 : Int), (-1 : Int)) := by
      simpa [directions] using hd
    rcases hcases with rfl | rfl | rfl | rfl <;>
      rcases hdirs with rfl | rfl | rfl | rfl
    · exact ⟨4, by norm_num, by norm_num, hW _ _ (by decide)⟩
    · exact ⟨1, by norm_num, by norm_num, hW _ _ (by decide)⟩
    · exact ⟨1, by norm_num, by norm_num, hW _ _ (by decide)⟩
    · exact ⟨1, by norm_num, by norm_num, hW _ _ (by decide)⟩
    · exact ⟨3, by norm_num, by norm_num, hW _ _ (by decide)⟩
    · exact ⟨1, by norm_num, by norm_num, hW _ _ (by decide)⟩
    · exact ⟨1, by norm_num, by norm_num, hW _ _ (by decide)⟩
    · exact ⟨1, by norm_num, by norm_num, hW _ _ (by decide)⟩
    · exact ⟨2, by norm_num, by norm_num, hW _ _ (by decide)⟩
    · exact ⟨1, by norm_num, by norm_num, hW _ _ (by decide)⟩
    · exact ⟨1, by norm_num, by norm_num, hW _ _ (by decide)⟩
    · exact ⟨1, by norm_num, by norm_num, hW _ _ (by decide)⟩
    · exact ⟨1, by norm_num, by norm_num, hW _ _ (by decide)⟩
    · exact ⟨1, by norm_num, by norm_num, hW _ _ (by decide)⟩
    · exact ⟨1, by norm_num, by norm_num, hW _ _ (by decide)⟩
    · exact ⟨1, by norm_num, by norm_num, hW _ _ (by decide)⟩
  unfold checkWin
  exact findSome?_of_unique (playerCells g p) h00 hscan0 hother

/-! ## Width bound invariant -/

/-- Occupied columns span at most `GRID_SIZE` distinct x values. -/
def spanOK (g : GridState) : Prop :=
  (getGridBounds g).2 - (getGridBounds g).1 + 1 ≤ GRID_SIZE

/-- A move accepted by the engine: the y comes from `findDropPosition` and
`validateMove` passes. -/
def acceptedStep (g : GridState) (b : BlockData) : Prop :=
  b.y = findDropPosition g b.x b.orientation ∧
  validateMove g b.x b.y b.orientation b.player = true

/-- Every placement of the sequence is accepted on the board it is played on. -/
def acceptedSeq : GridState → List BlockData → Prop
  | _, [] => True
  | g, b :: rest => acceptedStep g b ∧ acceptedSeq (applyBlockToGrid g b) rest

theorem mem_xs_setEntries {l : List (Pos × CellData)} {k : Pos} {v : CellData}
    {a : Int} (h : a ∈ (setEntries l k v).map (fun e => e.1.1)) :
    a ∈ l.map (fun e => e.1.1) ∨ a = k.1 := by
  unfold setEntries at h
  split at h
  · obtain ⟨e, he, rfl⟩ := List.mem_map.1 h
    obtain ⟨e0, he0, rfl⟩ := List.mem_map.1 he
    by_cases hk : e0.1 = k
    · right
      simp [hk]
    · left
      simp only [hk, if_false]
      exact List.mem_map_of_mem _ he0
  · rw [List.map_append] at h
    rcases List.mem_append.1 h with hl | hr
    · exact Or.inl hl
    · right
      simpa using hr

theorem mem_xs_apply {g : GridState} {b : BlockData} {a : Int}
    (h : a ∈ (applyBlockToGrid g b).entries.map (fun e => e.1.1)) :
    a ∈ g.entries.map (fun e => e.1.1) ∨ a = b.x ∨
      (b.orientation = Orientation.horizontal ∧ a = b.x + 1) := by
  unfold applyBlockToGrid applyBlockToGridInPlace mapCopy at h
  by_cases ho : b.orientation = Orientation.vertical
  · rw [if_pos ho] at h
    rcases mem_xs_setEntries h with h1 | h1
    · rcases mem_xs_setEntries h1 with h2 | h2
      · exact Or.inl h2
      · exact Or.inr (Or.inl h2)
    · exact Or.inr (Or.inl h1)
  · rw [if_neg ho] at h
    have hor : b.orientation = Orientation.horizontal := by
      cases hb : b.orientation
      · exact absurd hb ho
      · rfl
    rcases mem_xs_setEntries h with h1 | h1
    · rcases mem_xs_setEntries h1 with h2 | h2
      · exact Or.inl h2
      · exact Or.inr (Or.inl h2)
    · exact Or.inr (Or.inr ⟨hor, h1⟩)

theorem setEntries_ne_nil (l : List (Pos × CellData)) (k : Pos) (v : CellData) :
    setEntries l k v ≠ [] := by
  unfold setEntries
  split
  · next hany =>
      intro hnil
      rw [List.map_eq_nil_iff] at hnil
      subst hnil
      simp at hany
  · simp

theorem apply_entries_ne_nil (g : GridState) (b : BlockData) :
    (applyBlockToGrid g b).entries ≠ [] := by
  unfold applyBlockToGrid applyBlockToGridInPlace mapCopy
  split <;> exact setEntries_ne_nil _ _ _

/-- A placement passing the width check leaves the span within `GRID_SIZE`. -/
theorem spanOK_apply {g : GridState} {b : BlockData}
    (hw : checkWidthConstraint g b.x b.orientation = true) :
    spanOK (applyBlockToGrid g b) := by
  have hne : (applyBlockToGrid g b).entries ≠ [] := apply_entries_ne_nil g b
  rcases hg : g.entries with _ | ⟨e0, rest⟩
  · -- first block: the new board's columns lie in [b.x, b.x + 1]
    have hbw : ∀ e ∈ (applyBlockToGrid g b).entries, b.x ≤ e.1.1 ∧ e.1.1 ≤ b.x + 1 := by
      intro e he
      have hx : e.1.1 ∈ (applyBlockToGrid g b).entries.map (fun e => e.1.1) :=
        List.mem_map_of_mem _ he
      rcases mem_xs_apply hx with h1 | h1 | h1
      · rw [hg] at h1
        simp at h1
      · omega
      · omega
    have hb := bounds_within hne hbw
    unfold spanOK GRID_SIZE
    omega
  · -- the width check bounds the combined span
    have hgne : g.entries ≠ [] := by
      rw [hg]
      simp
    have hnotempty : g.entries.isEmpty = false := by
      simpa [List.isEmpty_iff] using hgne
    unfold checkWidthConstraint at hw
    rw [hnotempty] at hw
    simp only [Bool.false_eq_true, if_false, decide_eq_true_iff] at hw
    set bxMax := if b.orientation = Orientation.horizontal then b.x + 1 else b.x with hbx
    have hbw : ∀ e ∈ (applyBlockToGrid g b).entries,
        min (getGridBounds g).1 b.x ≤ e.1.1 ∧ e.1.1 ≤ max (getGridBounds g).2 bxMax := by
      intro e he
      have hx : e.1.1 ∈ (applyBlockToGrid g b).entries.map (fun e => e.1.1) :=
        List.mem_map_of_mem _ he
      rcases mem_xs_apply hx with h1 | h1 | h1
      · obtain ⟨e', he', hxe⟩ := List.mem_map.1 h1
        have := bounds_le_of_mem he'
        omega
      · constructor
        · omega
        · have : b.x ≤ bxMax := by
            rw [hbx]
            split <;> omega
          omega
      · constructor
        · omega
        · have : b.x + 1 ≤ bxMax := by
            rw [hbx, if_pos h1.1]
          omega
    have hb := bounds_within hne hbw
    unfold spanOK GRID_SIZE
    unfold GRID_SIZE at hw
    omega

theorem spanOK_empty : spanOK createEmptyGrid := by
  unfold spanOK getGridBounds createEmptyGrid GRID_SIZE
  norm_num

theorem spanOK_seq : ∀ (bs : List BlockData) (g : GridState), spanOK g →
    acceptedSeq g bs → spanOK (bs.foldl applyBlockToGrid g) := by
  intro bs
  induction bs with
  | nil => intro g hg _; exact hg
  | cons b rest ih =>
      intro g hg hseq
      obtain ⟨hstep, hrest⟩ := hseq
      have hw : checkWidthConstraint g b.x b.orientation = true :=
        ((validateMove_eq_true_iff g b.x b.y b.orientation b.player).1 hstep.2).2.1
      exact ih (applyBlockToGrid g b) (spanOK_apply hw) hrest

/-! ## Concrete boards and injected random sources used by the claim
witnesses and counterexamples -/

/-- A fixed id generator standing for the random `ai-…` ids. -/
def idf0 : Int → Orientation → String := fun _ _ => "ai"

/-- Identity shuffle, easy coin up, all picks 0. -/
def r0 : RandSrc := ⟨id, true, 0, 0, 0, false, 0, false, 0⟩

/-- Identity shuffle, easy coin up, easy pick index 2. -/
def r7 : RandSrc := ⟨id, true, 2, 0, 0, false, 0, false, 0⟩

/-- Identity shuffle, all coins down, all picks 0. -/
def rP : RandSrc := ⟨id, false, 0, 0, 0, false, 0, false, 0⟩

/-- One white vertical block at the origin: column 0 has height 2, column 1
has height 0. -/
def gOneBlock : GridState :=
  rebuildGridFromBlocks [⟨"w1", 0, 0, Orientation.vertical, Player.white⟩]

/-- Four white vertical blocks at x = 0..3: white owns `(x,0)` and `(x,1)`
for `x ∈ {0,1,2,3}`; several generated moves complete five in a row and
several do not. -/
def gFour : GridState := rebuildGridFromBlocks [
  ⟨"w0", 0, 0, Orientation.vertical, Player.white⟩,
  ⟨"w1", 1, 0, Orientation.vertical, Player.white⟩,
  ⟨"w2", 2, 0, Orientation.vertical, Player.white⟩,
  ⟨"w3", 3, 0, Orientation.vertical, Player.white⟩]

/-- Twenty white blocks (distinct ids), filling columns 0–4 to height 8. -/
def gTwenty : GridState := rebuildGridFromBlocks ((List.range 20).map (fun (i : Nat) =>
  ⟨s!"b{i}", ((i % 5 : Nat) : Int), (((i / 5 : Nat) * 2 : Nat) : Int),
    Orientation.vertical, Player.white⟩))

/-- A board whose white five-in-a-row `(0,0) … (4,0)` was reached by two
horizontal and one vertical white block. -/
def gRow : GridState := rebuildGridFromBlocks [
  ⟨"h1", 0, 0, Orientation.horizontal, Player.white⟩,
  ⟨"h2", 2, 0, Orientation.horizontal, Player.white⟩,
  ⟨"v1", 4, 0, Orientation.vertical, Player.white⟩]

/-- The cell value used to build a board whose white cells are exactly the
winning row. -/
def cellW : CellData := ⟨Player.white, Orientation.horizontal, "w", Part.origin⟩

/-- A board whose white cells are exactly `(0,0) … (4,0)`. -/
def gRowExact : GridState :=
  row5.foldl (fun g q => mapSet g q cellW) createEmptyGrid

theorem gRowExact_owned :
    ∀ q : Pos, ownedAtB gRowExact Player.white q = true ↔ q ∈ row5 := by
  intro q
  constructor
  · intro h
    obtain ⟨c, hc, hp⟩ := ownedAtB_true_iff.1 h
    have hm := mapGet_mem_of_eq_some hc
    have hent : gRowExact.entries =
        [((0, 0), cellW), ((1, 0), cellW), ((2, 0), cellW),
         ((3, 0), cellW), ((4, 0), cellW)] := rfl
    rw [hent] at hm
    simp only [List.mem_cons, List.not_mem_nil, or_false] at hm
    rcases hm with h1 | h1 | h1 | h1 | h1 <;>
      (simp only [Prod.mk.injEq] at h1
       rw [h1.1]
       decide)
  · intro h
    fin_cases h <;> decide

/-- The two-move legal opening used by the width-bound witness. -/
def bsTwo : List BlockData :=
  [⟨"w1", 0, 0, Orientation.vertical, Player.white⟩,
   ⟨"b1", 1, 0, Orientation.vertical, Player.black⟩]

/-! ## Claim theorems -/

/-- Claim C1, AI totality: `getBestMove` returns a legal move (its y is the
drop position and `validateMove` accepts it) whenever `hasValidMove` is true,
and `null` whenever `hasValidMove` is false; in particular the generator's
scan window `[minX-2, maxX+2]` finds a legal move exactly when
`hasValidMove`'s wider window `[minX-9, maxX+9]` does.  Holds for every
difficulty and every outcome of the injected random draws whose shuffle is a
permutation. -/
theorem ai_totality (g : GridState) (p : Player) (difficulty : AIDifficulty)
    (r : RandSrc) (idf : Int → Orientation → String)
    (hshuffle : ∀ l : List BlockData, (r.shuffle l).Perm l) :
    (hasValidMove g p = true ↔ getAllPossibleMoves g p idf ≠ []) ∧
    (hasValidMove g p = true → ∃ m, getBestMove g p difficulty r idf = some m ∧
      m.player = p ∧ m.y = findDropPosition g m.x m.orientation ∧
      validateMove g m.x m.y m.orientation m.player = true) ∧
    (hasValidMove g p = false → getBestMove g p difficulty r idf = none) := by
  have hiff := moves_ne_nil_iff_hasValidMove g p idf
  have hbm := getBestMove_mem g p difficulty r idf hshuffle
  refine ⟨hiff.symm, ?_, ?_⟩
  · intro hv
    obtain ⟨m, hm, hsome⟩ := hbm.2 (hiff.2 hv)
    obtain ⟨hp, hy, hval⟩ := getAllPossibleMoves_legal hm
    exact ⟨m, hsome, hp, hy, hval⟩
  · intro hv
    apply hbm.1
    by_contra hne
    exact absurd (hiff.1 hne) (by simp [hv])

theorem ai_totality_witness :
    (hasValidMove createEmptyGrid Player.white = true ↔
      getAllPossibleMoves createEmptyGrid Player.white idf0 ≠ []) ∧
    (hasValidMove createEmptyGrid Player.white = true →
      ∃ m, getBestMove createEmptyGrid Player.white AIDifficulty.easy r0 idf0 = some m ∧
        m.player = Player.white ∧
        m.y = findDropPosition createEmptyGrid m.x m.orientation ∧
        validateMove createEmptyGrid m.x m.y m.orientation m.player = true) ∧
    (hasValidMove createEmptyGrid Player.white = false →
      getBestMove createEmptyGrid Player.white AIDifficulty.easy r0 idf0 = none) :=
  ai_totality createEmptyGrid Player.white AIDifficulty.easy r0 idf0
    (fun l => List.Perm.refl l)

/-- Claim C2, drop correctness: `getColumnHeight` is the count of
contiguously occupied cells from `y = 0`; a vertical drop lands at the
column height and is invalid exactly when `y + 1 ≥ 9`; a horizontal drop
lands at the max of the two heights and is invalid exactly when that max is
`≥ 9`, or is nonzero with unequal heights; in particular heights 2 and 0
reject the horizontal drop. -/
theorem drop_correctness (g : GridState) (x : Int) :
    (mapHas g (x, (getColumnHeight g x : Int)) = false ∧
      ∀ j : Nat, j < getColumnHeight g x → mapHas g (x, (j : Int)) = true) ∧
    (findDropPosition g x Orientation.vertical = -1 ↔
      (getColumnHeight g x : Int) + 1 ≥ 9) ∧
    ((getColumnHeight g x : Int) + 1 < 9 →
      findDropPosition g x Orientation.vertical = (getColumnHeight g x : Int)) ∧
    (findDropPosition g x Orientation.horizontal = -1 ↔
      (max (getColumnHeight g x : Int) (getColumnHeight g (x + 1) : Int) ≥ 9 ∨
        (max (getColumnHeight g x : Int) (getColumnHeight g (x + 1) : Int) ≠ 0 ∧
          (getColumnHeight g x : Int) ≠ (getColumnHeight g (x + 1) : Int)))) ∧
    ((¬ (max (getColumnHeight g x : Int) (getColumnHeight g (x + 1) : Int) ≥ 9 ∨
        (max (getColumnHeight g x : Int) (getColumnHeight g (x + 1) : Int) ≠ 0 ∧
          (getColumnHeight g x : Int) ≠ (getColumnHeight g (x + 1) : Int)))) →
      findDropPosition g x Orientation.horizontal =
        max (getColumnHeight g x : Int) (getColumnHeight g (x + 1) : Int)) ∧
    (getColumnHeight g x = 2 → getColumnHeight g (x + 1) = 0 →
      findDropPosition g x Orientation.horizontal = -1) := by
  refine ⟨getColumnHeight_spec g x, ?_, ?_, ?_, ?_, ?_⟩
  · rw [findDropPosition_vertical]
    split_ifs with hc <;> constructor <;> intro h' <;> first
      | exact h'.elim
      | omega
  · intro h
    rw [findDropPosition_vertical, if_neg (by omega)]
  · rw [findDropPosition_horizontal]
    split_ifs with hc <;> constructor <;> intro h' <;> first
      | exact h'.elim
      | omega
  · intro h
    rw [findDropPosition_horizontal, if_neg (by tauto)]
  · intro h1 h2
    rw [findDropPosition_horizontal, if_pos (by rw [h1, h2]; norm_num)]

theorem drop_correctness_witness :
    getColumnHeight gOneBlock 0 = 2 ∧ getColumnHeight gOneBlock 1 = 0 ∧
    findDropPosition gOneBlock 0 Orientation.horizontal = -1 :=
  ⟨by decide, by decide,
    (drop_correctness gOneBlock 0).2.2.2.2.2 (by decide) (by decide)⟩

/-- Claim C3, width bound invariant: every placement accepted by
`validateMove` (with y from `findDropPosition`) keeps the occupied-column
span within `GRID_SIZE`, and hence every accepted sequence played from the
empty board ends with span at most 9. -/
theorem width_bound_invariant :
    (∀ (g : GridState) (b : BlockData), acceptedStep g b →
      spanOK (applyBlockToGrid g b)) ∧
    (∀ bs : List BlockData, acceptedSeq createEmptyGrid bs →
      spanOK (bs.foldl applyBlockToGrid createEmptyGrid)) := by
  constructor
  · intro g b hstep
    exact spanOK_apply
      ((validateMove_eq_true_iff g b.x b.y b.orientation b.player).1 hstep.2).2.1
  · intro bs hseq
    exact spanOK_seq bs createEmptyGrid spanOK_empty hseq

theorem width_bound_invariant_witness :
    acceptedSeq createEmptyGrid bsTwo ∧
    spanOK (bsTwo.foldl applyBlockToGrid createEmptyGrid) := by
  have hseq : acceptedSeq createEmptyGrid bsTwo :=
    ⟨⟨by decide, by decide⟩, ⟨by decide, by decide⟩, trivial⟩
  exact ⟨hseq, width_bound_invariant.2 bsTwo hseq⟩

/-- Claim C4, win detection: `checkWin` is non-null exactly when some
length-5 window in one of the four scan directions is entirely owned by the
player; and in the scenario where the player's cells are exactly the row
`(0,0) … (4,0)`, `checkWin` returns exactly that list in ascending x
order. -/
theorem win_detection (g : GridState) (p : Player) :
    ((checkWin g p).isSome = true ↔
      ∃ x y dx dy : Int, (dx, dy) ∈ directions ∧
        ∀ i : Nat, i < WIN_LENGTH → ownedAtB g p (x + dx * i, y + dy * i) = true) ∧
    ((∀ q : Pos, ownedAtB g p q = true ↔ q ∈ row5) → checkWin g p = some row5) := by
  constructor
  · constructor
    · intro h
      obtain ⟨x, y, dx, dy, hd, hw⟩ := (checkWin_isSome_iff g p).1 h
      exact ⟨x, y, dx, dy, hd, fun i hi =>
        hw i (by unfold WIN_LENGTH at hi; omega)⟩
    · rintro ⟨x, y, dx, dy, hd, hw⟩
      exact (checkWin_isSome_iff g p).2 ⟨x, y, dx, dy, hd, fun i hi =>
        hw i (by unfold WIN_LENGTH; omega)⟩
  · exact checkWin_row_scenario g p

theorem win_detection_witness :
    checkWin gRowExact Player.white = some row5 :=
  (win_detection gRowExact Player.white).2 gRowExact_owned

/-- Claim C5, short-side rule: a vertical block with a same-owner vertical
cell directly below (`y > 0`) is rejected; a horizontal block with a
same-owner horizontal cell at `(x-1, y)` or `(x+2, y)` is rejected; in the
same configurations, when the abutting cell differs in owner or orientation
(so `cellMatches` fails) and every other legality check passes, the move is
accepted. -/
theorem short_side_rule (g : GridState) (x y : Int) (p : Player) :
    (0 < y → cellMatches (mapGet g (x, y - 1)) p Orientation.vertical = true →
      validateMove g x y Orientation.vertical p = false) ∧
    ((cellMatches (mapGet g (x - 1, y)) p Orientation.horizontal = true ∨
      cellMatches (mapGet g (x + 2, y)) p Orientation.horizontal = true) →
      validateMove g x y Orientation.horizontal p = false) ∧
    (y ≠ -1 → checkWidthConstraint g x Orientation.vertical = true →
      (g.entries = [] ∨ isConnectedToExisting g x y Orientation.vertical = true) →
      cellMatches (mapGet g (x, y - 1)) p Orientation.vertical = false →
      validateMove g x y Orientation.vertical p = true) ∧
    (y ≠ -1 → checkWidthConstraint g x Orientation.horizontal = true →
      (g.entries = [] ∨ isConnectedToExisting g x y Orientation.horizontal = true) →
      cellMatches (mapGet g (x - 1, y)) p Orientation.horizontal = false →
      cellMatches (mapGet g (x + 2, y)) p Orientation.horizontal = false →
      validateMove g x y Orientation.horizontal p = true) := by
  refine ⟨?_, ?_, ?_, ?_⟩
  · intro hy hcm
    cases hv : validateMove g x y Orientation.vertical p with
    | false => rfl
    | true =>
        exfalso
        have hss := ((validateMove_eq_true_iff g x y Orientation.vertical p).1 hv).2.2.2
        unfold shortSideOk at hss
        rw [if_pos rfl] at hss
        rw [hss hy] at hcm
        exact Bool.false_ne_true hcm
  · intro hcm
    cases hv : validateMove g x y Orientation.horizontal p with
    | false => rfl
    | true =>
        exfalso
        have hss := ((validateMove_eq_true_iff g x y Orientation.horizontal p).1 hv).2.2.2
        unfold shortSideOk at hss
        rw [if_neg (by decide)] at hss
        rcases hcm with h | h
        · rw [hss.1] at h
          exact Bool.false_ne_true h
        · rw [hss.2] at h
          exact Bool.false_ne_true h
  · intro hy hw hconn hcm
    refine (validateMove_eq_true_iff g x y Orientation.vertical p).2
      ⟨hy, hw, hconn, ?_⟩
    unfold shortSideOk
    rw [if_pos rfl]
    intro _
    exact hcm
  · intro hy hw hconn hcm1 hcm2
    refine (validateMove_eq_true_iff g x y Orientation.horizontal p).2
      ⟨hy, hw, hconn, ?_⟩
    unfold shortSideOk
    rw [if_neg (by decide)]
    exact ⟨hcm1, hcm2⟩

theorem short_side_rule_witness :
    validateMove gOneBlock 0 2 Orientation.vertical Player.white = false ∧
    validateMove gOneBlock 0 2 Orientation.vertical Player.black = true :=
  ⟨(short_side_rule gOneBlock 0 2 Player.white).1 (by decide) (by decide),
   (short_side_rule gOneBlock 0 2 Player.black).2.2.1 (by decide) (by decide)
     (Or.inr (by decide)) (by decide)⟩

/-- Claim C6, round trip: rebuilding a grid from a block history equals
folding `applyBlockToGrid` over the same blocks in the same order, with the
same entry list and hence the same cell at every key. -/
theorem round_trip (blocks : List BlockData) :
    (rebuildGridFromBlocks blocks).entries =
      (blocks.foldl applyBlockToGrid createEmptyGrid).entries ∧
    ∀ k : Pos, mapGet (rebuildGridFromBlocks blocks) k =
      mapGet (blocks.foldl applyBlockToGrid createEmptyGrid) k := by
  have h : ∀ (bs : List BlockData) (g : GridState),
      bs.foldl applyBlockToGrid g = bs.foldl applyBlockToGridInPlace g := by
    intro bs
    induction bs with
    | nil => intro g; rfl
    | cons b rest ih =>
        intro g
        simp only [List.foldl_cons]
        rw [ih (applyBlockToGrid g b)]
        rfl
  constructor
  · rw [h blocks createEmptyGrid]
    rfl
  · intro k
    rw [h blocks createEmptyGrid]
    rfl

/-- Claim C7 as amended: whenever some generated move wins immediately,
`getBestMove` returns a winning move — at medium and hard always, and at
easy whenever the 80% random short-circuit is not taken.  (The claim as
stated fails at easy difficulty: see the counterexample.) -/
theorem ai_win_priority_amended (g : GridState) (p : Player)
    (difficulty : AIDifficulty) (r : RandSrc)
    (idf : Int → Orientation → String)
    (hshuffle : ∀ l : List BlockData, (r.shuffle l).Perm l)
    (heasy : difficulty = AIDifficulty.easy → r.easyCoin = false)
    (hwin : (getAllPossibleMoves g p idf).any (fun m =>
      (checkWin (applyBlockToGrid g m) p).isSome) = true) :
    ∃ m, getBestMove g p difficulty r idf = some m ∧
      (checkWin (applyBlockToGrid g m) p).isSome = true := by
  have hperm := hshuffle (getAllPossibleMoves g p idf)
  obtain ⟨m0, hm0, hw0⟩ := List.any_eq_true.1 hwin
  have hne : getAllPossibleMoves g p idf ≠ [] := List.ne_nil_of_mem hm0
  have hwinne : (r.shuffle (getAllPossibleMoves g p idf)).filter (fun m =>
      (checkWin (applyBlockToGrid g m) p).isSome) ≠ [] := by
    refine List.ne_nil_of_mem (List.mem_filter.2 ⟨hperm.mem_iff.2 hm0, hw0⟩)
  unfold getBestMove
  rw [if_neg (by simpa [List.isEmpty_iff] using hne)]
  dsimp only
  rw [if_neg ?_]
  rotate_left
  · rintro ⟨hd, hc⟩
    rw [heasy hd] at hc
    exact Bool.false_ne_true hc
  rw [if_pos (by simpa [List.isEmpty_iff] using hwinne)]
  refine ⟨_, rfl, ?_⟩
  have hp := pickFrom_mem r.winPick defaultBlock hwinne
  exact (List.mem_filter.1 hp).2

theorem ai_win_priority_amended_witness :
    ∃ m, getBestMove gFour Player.white AIDifficulty.medium rP idf0 = some m ∧
      (checkWin (applyBlockToGrid gFour m) Player.white).isSome = true :=
  ai_win_priority_amended gFour Player.white AIDifficulty.medium rP idf0
    (fun l => List.Perm.refl l) (fun _ => rfl) (by decide)

/-- Claim C7 as stated is false: on `gFour`, easy difficulty with the 80%
coin up and pick index 2 returns the non-winning move `(0, 2, horizontal)`
even though winning moves exist among the generated moves. -/
theorem ai_win_priority_counterexample :
    ((getAllPossibleMoves gFour Player.white idf0).any (fun m =>
      (checkWin (applyBlockToGrid gFour m) Player.white).isSome) = true) ∧
    getBestMove gFour Player.white AIDifficulty.easy r7 idf0 =
      some (mkAiMove idf0 Player.white 0 2 Orientation.horizontal) ∧
    checkWin (applyBlockToGrid gFour
      (mkAiMove idf0 Player.white 0 2 Orientation.horizontal)) Player.white = none :=
  ⟨by decide, by decide, by decide⟩

/-- Claim C8 as amended: the per-owned-cell additions of the heuristic are
`max(0, 5 - |x|) * 3` (center, `SCORES.CENTER = 3`) plus `5` per same-owner
8-neighbor (`SCORES.CONNECTIVITY = 5`), not `3` per neighbor as the
specification states. -/
theorem heuristic_bonus_amended (g : GridState) (p : Player) (x y : Int)
    (c : CellData) (hc : mapGet g (x, y) = some c) (hp : c.player = p) :
    cellBonus g p x y =
      max 0 (5 - (x.natAbs : Int)) * 3 + (adjacentCount g p x y : Int) * 5 := by
  unfold cellBonus
  rw [hc]
  simp [hp, SCORES_CENTER, SCORES_CONNECTIVITY]

theorem heuristic_bonus_amended_witness :
    cellBonus gOneBlock Player.white 0 0 =
      max 0 (5 - ((0 : Int).natAbs : Int)) * 3 +
        (adjacentCount gOneBlock Player.white 0 0 : Int) * 5 :=
  heuristic_bonus_amended gOneBlock Player.white 0 0
    ⟨Player.white, Orientation.vertical, "w1", Part.origin⟩ (by decide) rfl

/-- Claim C8 as stated is false: on the one-block board the evaluator scores
50, while the specification's 3-points-per-neighbor connectivity bonus would
give 46; the per-cell bonus at `(0,0)` is `15 + 5·1 = 20`, not
`15 + 3·1 = 18`. -/
theorem heuristic_bonus_counterexample :
    getHeuristicScore gOneBlock Player.white = 50 ∧
    getHeuristicScoreClaimed gOneBlock Player.white = 46 ∧
    adjacentCount gOneBlock Player.white 0 0 = 1 ∧
    cellBonus gOneBlock Player.white 0 0 = 20 ∧
    max 0 (5 - ((0 : Int).natAbs : Int)) * 3 + (1 : Int) * 3 = 18 :=
  ⟨by decide, by decide, by decide, by decide, by decide⟩

set_option maxRecDepth 100000 in
/-- Claim C9 as amended: `getAllPossibleMoves` and `getBestMove` do not
consult `MAX_BLOCKS_PER_PLAYER`; a player with 20 placed blocks can still
receive generated moves and a non-null `getBestMove` (the exhaustion rule is
enforced only by the caller). -/
theorem exhaustion_amended :
    ∃ (g : GridState) (p : Player),
      placedBlockCount g p = MAX_BLOCKS_PER_PLAYER ∧
      getAllPossibleMoves g p idf0 ≠ [] ∧
      hasValidMove g p = true ∧
      ∃ m, getBestMove g p AIDifficulty.easy r0 idf0 = some m :=
  ⟨gTwenty, Player.white, by decide, by decide, by decide,
    ⟨mkAiMove idf0 Player.white (-2) 0 Orientation.horizontal, by decide⟩⟩

set_option maxRecDepth 100000 in
/-- Claim C9 as stated is false: on a board where white owns 20 distinct
block ids, the move generator still returns moves and `getBestMove` still
returns a move. -/
theorem exhaustion_counterexample :
    placedBlockCount gTwenty Player.white = MAX_BLOCKS_PER_PLAYER ∧
    getAllPossibleMoves gTwenty Player.white idf0 ≠ [] ∧
    getBestMove gTwenty Player.white AIDifficulty.easy r0 idf0 ≠ none :=
  ⟨by decide, by decide, by decide⟩

/-- Claim C10, shape of a win result: a non-null `checkWin` result has
exactly `WIN_LENGTH` coordinates, each occupied on the board by a cell of
the player, forming consecutive unit steps from the first coordinate along
one of the four scan directions; it is never longer than 5. -/
theorem win_shape (g : GridState) (p : Player) (l : List Pos)
    (h : checkWin g p = some l) :
    l.length = WIN_LENGTH ∧
    (∀ q ∈ l, ∃ c, mapGet g q = some c ∧ c.player = p) ∧
    ∃ x y dx dy : Int, (dx, dy) ∈ directions ∧
      l = (List.range WIN_LENGTH).map
        (fun (i : Nat) => (x + dx * (i : Int), y + dy * (i : Int))) := by
  obtain ⟨hlen, howned, hshape⟩ := checkWin_some_shape h
  exact ⟨hlen, fun q hq => ownedAtB_true_iff.1 (howned q hq), hshape⟩

theorem win_shape_witness :
    row5.length = WIN_LENGTH ∧
    (∀ q ∈ row5, ∃ c, mapGet gRow q = some c ∧ c.player = Player.white) ∧
    ∃ x y dx dy : Int, (dx, dy) ∈ directions ∧
      row5 = (List.range WIN_LENGTH).map
        (fun (i : Nat) => (x + dx * (i : Int), y + dy * (i : Int))) :=
  win_shape gRow Player.white row5 (by decide)

end Blocks
